import Mathlib

/-!
Verification model of the DEMONS-SLAYER repository.

The repository contains several near-duplicate Express/Puppeteer "message
blaster" servers.  The claims under study target the task scheduler of the
first variant in `src/server.js` (lines 1-831): an in-memory task registry
(`tasks : Map`), a per-task log store (`logs : Map`), a FIFO admission queue
(`taskQueue` with `activeTasks` and `MAX_CONCURRENT_TASKS`), the HTTP
handlers (`/api/start-task`, `/api/stop-task/:id`, `/api/stop-all-tasks`,
`/api/task/:id`, `/api/logs/:id`) and the per-task execution loop
(`processTask` / `processTaskQueue`).

Modelling conventions:
* JavaScript strings are Lean `String`s; the string operations the code uses
  (`trim`, `split`, `includes`, `join`) are implemented over the underlying
  character lists so that every definition is executable by the kernel.
  String length is counted in characters.
* `Math.random()`-driven choices (task-id digits, emoji insertion) are
  explicit oracle arguments.
* Wall-clock timestamps are not modelled; log entries keep only their text.
  The periodic 24h cleanup sweep is outside the modelled event alphabet.
* The single-threaded JavaScript event loop executes code atomically between
  `await` suspension points.  The scheduler is therefore modelled as a state
  machine whose events are the HTTP handlers (each handler body is one atomic
  block) and the resumption points of the per-task execution loop: the return
  of one `sendFacebookMessage` call (`deliverReturn`), the wake-up from the
  inter-operation / inter-batch `wait` sleeps (`wake`; consecutive sleeps are
  merged into one suspension since the cooperative `isStopped` flag is
  re-checked at every loop head after the final wake-up anyway), and the
  `catch` handler of `processTask` firing (`structuralError`).
  `sendFacebookMessage` (src/server.js:492-715) wraps its whole body in
  `try/catch` and returns `false` on any thrown error, so from the
  scheduler's point of view a delivery is an opaque suspension that resumes
  with a boolean outcome; the outcome is an oracle argument of the
  `deliverReturn` event.
-/

namespace DemonsSlayer

/-! ## Association lists (JavaScript `Map` with insertion order) -/

/-- Lookup of the first binding of a key, as `Map.get`. -/
def lookupA {α : Type} : List (String × α) → String → Option α
  | [], _ => none
  | (k, v) :: l, id => if k = id then some v else lookupA l id

/-- `Map.set`: replace the first binding of the key in place, or append. -/
def setA {α : Type} : List (String × α) → String → α → List (String × α)
  | [], id, v => [(id, v)]
  | (k, w) :: l, id, v => if k = id then (id, v) :: l else (k, w) :: setA l id v

/-- Remove the first binding of a key (used when an execution loop ends). -/
def eraseKey {α : Type} : List (String × α) → String → List (String × α)
  | [], _ => []
  | (k, v) :: l, id => if k = id then l else (k, v) :: eraseKey l id

/-- Remove the first occurrence of an element (`indexOf` + `splice(i, 1)`). -/
def eraseFirst : List String → String → List String
  | [], _ => []
  | x :: l, id => if x = id then l else x :: eraseFirst l id

/-- Keys of an association list. -/
def keysOf {α : Type} (l : List (String × α)) : List String := l.map Prod.fst

/-! ## Character-level string primitives used by the JavaScript code -/

/-- Whitespace recognised by `String.prototype.trim` and the regex `\s`
(restricted to the ASCII whitespace the repository's inputs use). -/
def isWs (c : Char) : Bool :=
  c = ' ' || c = '\t' || c = '\n' || c = '\r' || c = '\x0b' || c = '\x0c'

/-- `String.prototype.trim`: drop leading and trailing whitespace. -/
def jsTrim (cs : List Char) : List Char :=
  ((cs.dropWhile isWs).reverse.dropWhile isWs).reverse

/-- Auxiliary for `splitChar`, accumulating the current field reversed. -/
def splitCharAux (sep : Char) : List Char → List Char → List (List Char)
  | cur, [] => [cur.reverse]
  | cur, c :: cs =>
    if c = sep then cur.reverse :: splitCharAux sep [] cs
    else splitCharAux sep (c :: cur) cs

/-- `String.prototype.split(sep)` for a single-character separator. -/
def splitChar (sep : Char) (cs : List Char) : List (List Char) :=
  splitCharAux sep [] cs

/-- `Array.prototype.join(sep)` for a single-character separator. -/
def joinChar (sep : Char) : List (List Char) → List Char
  | [] => []
  | [w] => w
  | w :: ws => w ++ sep :: joinChar sep ws

/-- Auxiliary for `wsWords`: split on runs of whitespace, accumulating the
current word reversed. -/
def wsWordsAux : List Char → List Char → List (List Char)
  | cur, [] => if cur = [] then [] else [cur.reverse]
  | cur, c :: cs =>
    if isWs c then
      if cur = [] then wsWordsAux [] cs else cur.reverse :: wsWordsAux [] cs
    else wsWordsAux (c :: cur) cs

/-- `String.prototype.split(/\s+/)` applied to a trimmed string: the list of
maximal whitespace-free words. -/
def wsWords (cs : List Char) : List (List Char) := wsWordsAux [] cs

/-! ## Message enhancement (src/server.js:146-173) -/

/-- Oracle for the randomized choices of `enhanceMessage`: whether to add the
leading / trailing emoji (`Math.random() < 0.4`), whether to add an emoji
after word `i` (`Math.random() < 0.25`), and the emoji characters themselves
(each a `getRandomEmoji()` result). -/
structure ERand where
  startB : Bool
  endB : Bool
  midB : Nat → Bool
  startS : List Char
  endS : List Char
  midS : Nat → List Char

/-- The word-processing loop of `enhanceMessage`: push each word; after word
`i`, if the oracle fires and `i < words.length - 1`, push an emoji. -/
def midWalk (r : ERand) : Nat → List (List Char) → List (List Char)
  | _, [] => []
  | _, [w] => [w]
  | i, w :: ws =>
    if r.midB i then w :: r.midS i :: midWalk r (i + 1) ws
    else w :: midWalk r (i + 1) ws

/-- `enhanceMessage` (src/server.js:146-173): trim the message, split it into
whitespace-separated words, optionally prepend / intersperse / append emoji,
and join with single spaces.  Empty or whitespace-only messages are returned
unchanged. -/
def enhanceMessage (r : ERand) (message : List Char) : List Char :=
  if jsTrim message = [] then message
  else
    let words := wsWords (jsTrim message)
    let enhanced := midWalk r 0 words
    let enhanced := if r.startB then r.startS :: enhanced else enhanced
    let enhanced := if r.endB then enhanced ++ [r.endS] else enhanced
    joinChar ' ' enhanced

/-- The whitespace-normal form of a message: its words joined by single
spaces (leading/trailing whitespace dropped, internal runs collapsed). -/
def wsNormalize (message : List Char) : List Char :=
  joinChar ' ' (wsWords (jsTrim message))

/-- An `ERand` oracle on which every random check fails (all the
`Math.random()` draws fall above the thresholds): no emoji are inserted. -/
def noEmoji : ERand :=
  { startB := false, endB := false, midB := fun _ => false,
    startS := [], endS := [], midS := fun _ => [] }

/-! ## Cookie parsing (src/server.js:103-144) -/

/-- One parsed cookie, as constructed by `parseCookies`. -/
structure Cookie where
  name : String
  value : String
  domain : String
  path : String
  secure : Bool
  httpOnly : Bool
deriving DecidableEq, Repr

/-- Whether a trimmed line is a comment (`#` or `//` prefix). -/
def isCommentLine : List Char → Bool
  | '#' :: _ => true
  | '/' :: '/' :: _ => true
  | _ => false

/-- Parse one line of cookie input into at most one cookie
(src/server.js:109-130). -/
def parseCookieLine (line : List Char) : Option Cookie :=
  let t := jsTrim line
  if t = [] then none
  else if isCommentLine t then none
  else if t.contains '=' then
    match splitChar '=' t with
    | [] => none
    | name :: valueParts =>
      let value := joinChar '=' valueParts
      if jsTrim name ≠ [] ∧ jsTrim value ≠ [] then
        let cookieValue := jsTrim ((splitChar ';' value).headD [])
        some { name := ⟨jsTrim name⟩, value := ⟨cookieValue⟩,
               domain := ".facebook.com", path := "/", secure := true,
               httpOnly :=
                 decide ((⟨jsTrim name⟩ : String) ∈
                   (["c_user", "xs", "fr", "datr"] : List String)) }
      else none
  else none

/-- Duplicate removal, first occurrence of each cookie name wins
(src/server.js:132-141). -/
def dedupeCookies (seen : List String) : List Cookie → List Cookie
  | [] => []
  | c :: cs =>
    if c.name ∈ seen then dedupeCookies seen cs
    else c :: dedupeCookies (c.name :: seen) cs

/-- `parseCookies` (src/server.js:103-144): split the raw cookie text into
lines, parse each `name=value` line, and drop duplicate names. -/
def parseCookies (cookieString : String) : List Cookie :=
  if jsTrim cookieString.data = [] then []
  else
    dedupeCookies []
      ((splitChar '\n' cookieString.data).filterMap parseCookieLine)

/-- The message / conversation list fields of the submit handler
(src/server.js:282-287): split on newlines, trim, drop empty lines. -/
def listField (s : String) : List String :=
  ((splitChar '\n' s.data).map (fun l => (⟨jsTrim l⟩ : String))).filter
    (fun m => 0 < m.data.length)

/-! ## Task-id generation (src/server.js:72-75) -/

/-- `generateTaskId`: a four-digit random number prefixed with `h4rsh_`.
`Math.floor(1000 + Math.random() * 9000)` draws uniformly from
`[1000, 9999]`; the draw is modelled by the oracle argument `rand`, reduced
into the same range. -/
def generateTaskId (rand : Nat) : String :=
  "h4rsh_" ++ (1000 + rand % 9000).repr

/-! ## The task record (src/server.js:317-334) -/

/-- One task, with the fields of the object created by the
`/api/start-task` handler.  `startTime` is omitted (timestamps are not
modelled). -/
structure Task where
  id : String
  status : String
  progress : Nat
  total : Nat
  completed : Nat
  success : Nat
  failed : Nat
  cookies : List Cookie
  messages : List String
  conversations : List String
  batch_count : Nat
  batch_delay : Nat
  time_delay : Nat
  isStopped : Bool
  user_id : String
deriving DecidableEq, Repr

/-- The number of loop iterations of `processTask` for a task: the batch
loop runs `batch_count` times, the conversation loop `|conversations|`
times, the message loop `|messages|` times.  Written in the same factor
order as the handler's `totalOperations` computation (src/server.js:314). -/
def numOps (t : Task) : Nat :=
  t.batch_count * t.messages.length * t.conversations.length

/-- `Math.round((completed / total) * 100)` over naturals
(round half away from zero; `total = 0` is unreachable for created tasks). -/
def jsRound100 (completed total : Nat) : Nat :=
  if total = 0 then 0 else (200 * completed + total) / (2 * total)

/-- The counter update of one operation (src/server.js:748-755):
`completed++`, recompute `progress`, then `success++` or `failed++`
according to the delivery outcome. -/
def opComplete (t : Task) (outcome : Bool) : Task :=
  let t := { t with completed := t.completed + 1 }
  let t := { t with progress := jsRound100 t.completed t.total }
  if outcome then { t with success := t.success + 1 }
  else { t with failed := t.failed + 1 }

/-- The finalization of `processTask` (src/server.js:773-780): `stopped` if
the cancellation flag was observed, `completed` otherwise. -/
def finalizeStatus (t : Task) : Task :=
  { t with status := if t.isStopped then "stopped" else "completed" }

/-! ## Scheduler state -/

/-- Resumption point of one task's execution loop:
`delivering k` = suspended inside the `await sendFacebookMessage` call of
operation `k`; `ready k` = suspended in the `await wait(...)` sleep(s)
preceding operation `k`. -/
inductive PC where
  | delivering (k : Nat)
  | ready (k : Nat)
deriving DecidableEq, Repr

/-- The global mutable state of src/server.js: the `tasks` and `logs` maps,
the FIFO `taskQueue`, the `activeTasks` counter (an integer: the code can
drive it negative), the set of suspended execution loops (`runners`), and a
ghost trace of every `sendFacebookMessage` invocation `(taskId, k)`. -/
structure State where
  tasks : List (String × Task)
  logs : List (String × List String)
  queue : List String
  activeTasks : Int
  runners : List (String × PC)
  deliveries : List (String × Nat)
deriving DecidableEq, Repr

/-- `MAX_CONCURRENT_TASKS` (src/server.js:14). -/
def MAX_CONCURRENT_TASKS : Int := 40

/-- `MAX_TASKS_PER_USER` (src/server.js:15). -/
def MAX_TASKS_PER_USER : Nat := 10

/-- The empty initial state. -/
def initState : State :=
  { tasks := [], logs := [], queue := [], activeTasks := 0,
    runners := [], deliveries := [] }

/-- `addLog` (src/server.js:83-101): append an entry to the task's log list,
creating it if missing, and drop the oldest entry beyond 500.  Timestamps
are elided from the entry text. -/
def pushLog (s : State) (id : String) (entry : String) : State :=
  let cur := ((lookupA s.logs id).getD []) ++ [entry]
  let cur := if 500 < cur.length then cur.drop 1 else cur
  { s with logs := setA s.logs id cur }

/-- The number of tasks whose status is `running`. -/
def runningCount (s : State) : Nat :=
  (s.tasks.filter (fun p => p.2.status = "running")).length

/-! ## The execution loop (src/server.js:718-804) -/

/-- Entry of `processTask` for a task popped from the queue
(src/server.js:718-746): set status `running`, increment `activeTasks`, log,
and run the nested loops synchronously up to the first
`await sendFacebookMessage`, leaving the loop suspended at operation `0`.
If the loops have no iteration at all (unreachable for validated
submissions, which have `batch_count ≥ 1` and non-empty lists) the loop
finalizes immediately. -/
def spawn (s : State) (id : String) (t : Task) : State :=
  let t1 := { t with status := "running" }
  let s1 := { s with tasks := setA s.tasks id t1,
                     activeTasks := s.activeTasks + 1 }
  let s1 := pushLog s1 id "info: Task started processing"
  if numOps t1 = 0 then
    { s1 with tasks := setA s1.tasks id (finalizeStatus t1),
              activeTasks := s1.activeTasks - 1 }
  else
    { s1 with runners := (id, PC.delivering 0) :: s1.runners,
              deliveries := s1.deliveries ++ [(id, 0)] }

/-- One iteration step of the `processTaskQueue` `while` loop
(src/server.js:793-804), fuelled by the initial queue length (each
iteration pops one element and `spawn` never pushes). -/
def ptqAux : Nat → State → State
  | 0, s => s
  | fuel + 1, s =>
    if s.activeTasks < MAX_CONCURRENT_TASKS then
      match s.queue with
      | [] => s
      | id :: rest =>
        let s1 := { s with queue := rest }
        match lookupA s1.tasks id with
        | some t =>
          if t.status = "queued" && !t.isStopped then
            ptqAux fuel (spawn s1 id t)
          else ptqAux fuel s1
        | none => ptqAux fuel s1
    else s

/-- `processTaskQueue` (src/server.js:793-804): promote FIFO-head queued
tasks into running loops while `activeTasks < MAX_CONCURRENT_TASKS`. -/
def processTaskQueue (s : State) : State :=
  ptqAux s.queue.length s

/-- End of one execution loop (src/server.js:773-789): finalize the status,
log, decrement `activeTasks` in the `finally` block, drop the loop's
suspension, and re-run `processTaskQueue`. -/
def finishRunner (s : State) (id : String) (t : Task) : State :=
  let t1 := finalizeStatus t
  let s1 := { s with tasks := setA s.tasks id t1,
                     runners := eraseKey s.runners id,
                     activeTasks := s.activeTasks - 1 }
  let s1 := pushLog s1 id
    (if t1.isStopped then "warning: Task stopped" else "success: Task completed")
  processTaskQueue s1

/-- Resumption after the `await sendFacebookMessage` of operation `k`
returns `outcome` (src/server.js:748-771): apply the counter update, then
either suspend in the inter-operation sleep, run on synchronously to the
`finally` block when the cancellation flag is set or the loops are
exhausted, or (dead branch kept for structural fidelity: the sleep guard
`completed < total` rather than the loop indices decides suspension)
continue directly into the next delivery. -/
def deliverReturnStep (s : State) (id : String) (k : Nat) (outcome : Bool) :
    State :=
  match lookupA s.tasks id with
  | none => s
  | some t =>
    let t1 := opComplete t outcome
    let s1 := { s with tasks := setA s.tasks id t1 }
    let s1 := pushLog s1 id
      (if outcome then "success: Message sent" else "error: Message failed")
    if t1.isStopped then finishRunner s1 id t1
    else if k + 1 < numOps t1 then
      if t1.completed < t1.total then
        { s1 with runners := setA s1.runners id (PC.ready (k + 1)) }
      else
        { s1 with runners := setA s1.runners id (PC.delivering (k + 1)),
                  deliveries := s1.deliveries ++ [(id, k + 1)] }
    else finishRunner s1 id t1

/-- Resumption after the sleep(s) preceding operation `k`: the loop heads
re-check `task.isStopped` (src/server.js:730,735,738) and either break out
to finalization or invoke the next delivery. -/
def wakeStep (s : State) (id : String) (k : Nat) : State :=
  match lookupA s.tasks id with
  | none => s
  | some t =>
    if t.isStopped then finishRunner s id t
    else
      { s with runners := setA s.runners id (PC.delivering k),
               deliveries := s.deliveries ++ [(id, k)] }

/-- The `catch` handler of `processTask` firing on an uncaught structural
error (src/server.js:782-789): status becomes `error`, the `finally` block
decrements `activeTasks` and re-runs the queue, and the loop ends. -/
def structuralErrorStep (s : State) (id : String) : State :=
  match lookupA s.runners id, lookupA s.tasks id with
  | some _, some t =>
    let s1 := { s with tasks := setA s.tasks id { t with status := "error" },
                       runners := eraseKey s.runners id,
                       activeTasks := s.activeTasks - 1 }
    let s1 := pushLog s1 id "error: Task error"
    processTaskQueue s1
  | _, _ => s

/-! ## HTTP handlers -/

/-- The `/api/start-task` handler (src/server.js:233-369): validate the raw
fields, enforce the per-user running-task limit, generate the id, parse the
inputs, clamp the numeric parameters, create the task in `queued` state,
record it, log, enqueue, and run the admission loop.  A rejected submission
leaves the state unchanged. -/
def submitStep (s : State) (rand : Nat) (user : String)
    (cookies messages conversation_id : String)
    (batch_count batch_delay time_delay : Nat) : State :=
  if jsTrim cookies.data = [] then s
  else if jsTrim messages.data = [] then s
  else if jsTrim conversation_id.data = [] then s
  else
    let userTaskCount :=
      (s.tasks.filter
        (fun p => p.2.user_id = user && p.2.status = "running")).length
    if MAX_TASKS_PER_USER ≤ userTaskCount then s
    else
      let taskId := generateTaskId rand
      let parsedCookies := parseCookies cookies
      let messageList := listField messages
      let conversationList := listField conversation_id
      if parsedCookies.length = 0 then s
      else if messageList.length = 0 then s
      else if conversationList.length = 0 then s
      else
        let batchCount := min (max 1 batch_count) 100
        let batchDelay := min (max 1 batch_delay) 300
        let timeDelay := min (max 1 time_delay) 600
        let totalOperations :=
          batchCount * messageList.length * conversationList.length
        let task : Task :=
          { id := taskId, status := "queued", progress := 0,
            total := totalOperations, completed := 0, success := 0,
            failed := 0, cookies := parsedCookies, messages := messageList,
            conversations := conversationList, batch_count := batchCount,
            batch_delay := batchDelay, time_delay := timeDelay,
            isStopped := false, user_id := user }
        let s1 := { s with tasks := setA s.tasks taskId task,
                           logs := setA s.logs taskId [] }
        let s1 := pushLog s1 taskId "info: Task created and queued"
        let s1 := { s1 with queue := s1.queue ++ [taskId] }
        processTaskQueue s1

/-- The `/api/stop-task/:taskId` handler (src/server.js:437-464): if the
task exists, set the cancellation flag, overwrite the status with
`stopped`, remove the id from the admission queue, and log.  An unknown id
leaves the state unchanged (404). -/
def stopTaskStep (s : State) (id : String) : State :=
  match lookupA s.tasks id with
  | none => s
  | some t =>
    let t1 := { t with isStopped := true, status := "stopped" }
    let s1 := { s with tasks := setA s.tasks id t1,
                       queue := eraseFirst s.queue id }
    pushLog s1 id "warning: Task stopped by user"

/-- The HTTP outcome of the stop handler: `true` = the 200 success reply,
`false` = the 404 `Task not found` reply. -/
def stopResp (s : State) (id : String) : Bool :=
  (lookupA s.tasks id).isSome

/-- One iteration of the `for (const [taskId, task] of tasks.entries())`
loop of the stop-all handler (src/server.js:469-478): a `running` or
`queued` task gets its cancellation flag set and its status overwritten
with `stopped`. -/
def stopAllVisit (acc : State) (id : String) : State :=
  match lookupA acc.tasks id with
  | some t =>
    if t.status = "running" ∨ t.status = "queued" then
      let t1 := { t with isStopped := true, status := "stopped" }
      pushLog { acc with tasks := setA acc.tasks id t1 } id
        "warning: Task stopped via stop-all"
    else acc
  | none => acc

/-- The `/api/stop-all-tasks` handler (src/server.js:466-489): stop every
`running` or `queued` task, clear the FIFO queue, and reset `activeTasks`
to zero. -/
def stopAllStep (s : State) : State :=
  let s1 := (keysOf s.tasks).foldl stopAllVisit s
  { s1 with queue := [], activeTasks := 0 }

/-- The `/api/task/:taskId` handler (src/server.js:371-397): the task
snapshot, or `none` for the 404 `Task not found` reply. -/
def getTaskResp (s : State) (id : String) : Option Task :=
  lookupA s.tasks id

/-- The `/api/logs/:taskId` handler (src/server.js:399-407): always a 200
success reply carrying `(logs.get(taskId) || []).slice(-100)` — an unknown
id yields the empty list, never a 404. -/
def getLogsResp (s : State) (id : String) : List String :=
  let l := (lookupA s.logs id).getD []
  l.drop (l.length - 100)

/-! ## Events and traces -/

/-- The atomic transitions of the scheduler: one HTTP handler invocation or
one resumption of a suspended execution loop. -/
inductive Event where
  | submit (rand : Nat) (user cookies messages conversation_id : String)
      (batch_count batch_delay time_delay : Nat)
  | stopTask (id : String)
  | stopAll
  | deliverReturn (id : String) (outcome : Bool)
  | wake (id : String)
  | structuralError (id : String)
deriving DecidableEq, Repr

/-- Apply one event.  Loop-resumption events for an id that is not
suspended at the matching point are no-ops. -/
def applyEvent (s : State) : Event → State
  | .submit r u c m cv bc bd td => submitStep s r u c m cv bc bd td
  | .stopTask id => stopTaskStep s id
  | .stopAll => stopAllStep s
  | .deliverReturn id outcome =>
    match lookupA s.runners id with
    | some (PC.delivering k) => deliverReturnStep s id k outcome
    | _ => s
  | .wake id =>
    match lookupA s.runners id with
    | some (PC.ready k) => wakeStep s id k
    | _ => s
  | .structuralError id => structuralErrorStep s id

/-- Run a trace of events from the empty initial state. -/
def runEvents (evts : List Event) : State :=
  evts.foldl applyEvent initState

/-- The generated id of a submit event, if any. -/
def submitIdOf : Event → Option String
  | .submit r _ _ _ _ _ _ _ => some (generateTaskId r)
  | _ => none

/-- No event of the list is a submission generating the given id. -/
def noSubmitOfB (id : String) (evts : List Event) : Bool :=
  evts.all (fun e => submitIdOf e ≠ some id)

/-- Every submission of the trace, run from state `s`, draws an id that is
not yet a key of the task registry at the moment it runs. -/
def freshAux (s : State) : List Event → Bool
  | [] => true
  | e :: rest =>
    (match submitIdOf e with
     | some id => (lookupA s.tasks id).isNone
     | none => true) && freshAux (applyEvent s e) rest

/-- Every submission of the trace draws an id that is not yet a key of the
task registry at the moment it runs.  The functional registry model
coincides with JavaScript's aliased object heap exactly under this
condition: an id collision makes the later submission overwrite the
earlier task's registry entry while the earlier execution loop keeps
mutating its own now-detached object (see the id-uniqueness claim). -/
def freshTraceB (evts : List Event) : Bool :=
  freshAux initState evts

/-- The delivery invocations recorded for one task. -/
def deliveriesFor (s : State) (id : String) : List (String × Nat) :=
  s.deliveries.filter (fun p => p.1 = id)

/-! ## Observation predicates used by the claims -/

/-- The status of a task, as seen by a status query. -/
def taskStatusOf (s : State) (id : String) : Option String :=
  (lookupA s.tasks id).map Task.status

/-- The `(completed, success, failed)` counters of a task. -/
def countersOf (s : State) (id : String) : Option (Nat × Nat × Nat) :=
  (lookupA s.tasks id).map (fun t => (t.completed, t.success, t.failed))

/-- The registry entry for the id satisfies
`completed = success + failed ∧ completed ≤ total` (vacuous if absent). -/
def countersOKB (s : State) (id : String) : Bool :=
  match lookupA s.tasks id with
  | some t =>
    (t.completed == t.success + t.failed) && decide (t.completed ≤ t.total)
  | none => true

/-- Between two observations the task's three counters did not decrease
(and the task did not disappear). -/
def countersLeB (s s' : State) (id : String) : Bool :=
  match lookupA s.tasks id, lookupA s'.tasks id with
  | some t, some t' =>
    decide (t.completed ≤ t'.completed) && decide (t.success ≤ t'.success)
      && decide (t.failed ≤ t'.failed)
  | some _, none => false
  | none, _ => true

/-- The registry entry's `total` equals the loop-iteration count
`batch_count * |messages| * |conversations|` (vacuous if absent). -/
def totalEqB (s : State) (id : String) : Bool :=
  match lookupA s.tasks id with
  | some t => t.total == numOps t
  | none => true

/-- Between two observations the task's `total` field is unchanged (and the
task did not disappear). -/
def totalPreservedB (s s' : State) (id : String) : Bool :=
  match lookupA s.tasks id, lookupA s'.tasks id with
  | some t, some t' => t'.total == t.total
  | some _, none => false
  | none, _ => true

/-- The registry entry's status is one of the five values the code
assigns: `queued`, `running`, `completed`, `stopped`, `error`
(vacuous if absent). -/
def statusOKB (s : State) (id : String) : Bool :=
  match lookupA s.tasks id with
  | some t =>
    decide (t.status ∈
      (["queued", "running", "completed", "stopped", "error"] : List String))
  | none => true

/-- The task is a freshly promoted running task of `n` operations: zeroed
counters, not cancelled, `total = n` agreeing with the loop iteration
count, and its execution loop suspended at the first delivery. -/
def freshRunningB (s : State) (id : String) (n : Nat) : Bool :=
  match lookupA s.tasks id, lookupA s.runners id with
  | some t, some (PC.delivering 0) =>
    (t.completed == 0) && (t.success == 0) && (t.failed == 0)
      && !t.isStopped && (t.total == n) && (numOps t == n) && decide (1 ≤ n)
  | _, _ => false

/-- The loop-resumption schedule that drives a single task of `n`
operations to termination when every delivery reports failure: the
delivery of each operation returns `false`, with the sleep wake-up between
consecutive operations. -/
def driveFalse (id : String) : Nat → List Event
  | 0 => []
  | 1 => [.deliverReturn id false]
  | n + 2 => .deliverReturn id false :: .wake id :: driveFalse id (n + 1)

/-- A task that was stopped while queued, observed by later events: its
entry stays `stopped` with the cancellation flag set, it has no suspended
execution loop, and no delivery was ever invoked for it. -/
def frozenP (s : State) (id : String) : Prop :=
  (∃ t, lookupA s.tasks id = some t ∧ t.isStopped = true ∧
    t.status = "stopped") ∧
  lookupA s.runners id = none ∧
  deliveriesFor s id = []

/-! ## Invariants of the scheduler -/

/-- Properties every registry entry satisfies unconditionally: the status
is one of the five assigned literals, and `total` equals the loop
iteration count (both are written together at submission and never touched
afterwards). -/
def baseOK (t : Task) : Prop :=
  t.status ∈
      (["queued", "running", "completed", "stopped", "error"] : List String)
    ∧ t.total = numOps t

/-- Unconditional registry invariant. -/
def BInv (s : State) : Prop := ∀ p ∈ s.tasks, baseOK p.2

/-- Counter-consistency of one registry entry: `completed = success +
failed`, `completed ≤ total`, `total` is the loop-iteration count of a
validated submission (at least one operation), and a still-queued task has
untouched counters. -/
def countersOK (t : Task) : Prop :=
  t.completed = t.success + t.failed ∧
  t.completed ≤ t.total ∧
  t.total = numOps t ∧
  1 ≤ t.batch_count ∧ t.messages ≠ [] ∧ t.conversations ≠ [] ∧
  (t.status = "queued" → t.completed = 0 ∧ t.success = 0 ∧ t.failed = 0)

/-- The operation index a suspension is at. -/
def pcIdx : PC → Nat
  | .delivering k => k
  | .ready k => k

/-- Consistency of one suspended execution loop with its task's registry
entry: the loop has completed exactly the operations before its suspension
index, which is a real operation, and the task is past `queued`. -/
def runnerOK (s : State) (r : String × PC) : Prop :=
  ∃ t, lookupA s.tasks r.1 = some t ∧ t.completed = pcIdx r.2 ∧
    pcIdx r.2 < t.total ∧ t.status ≠ "queued"

/-- The scheduler invariant for collision-free executions: every registry
entry is counter-consistent, every suspended loop agrees with its entry,
and no task has two suspended loops. -/
def CInv (s : State) : Prop :=
  (∀ p ∈ s.tasks, countersOK p.2) ∧
  (∀ r ∈ s.runners, runnerOK s r) ∧
  (keysOf s.runners).Nodup

/-- Fields of a task that no event rewrites (for a fixed registry entry)
together with the monotonicity of the three counters. -/
def taskEvol (t t' : Task) : Prop :=
  t'.total = t.total ∧ t'.messages = t.messages ∧
  t'.conversations = t.conversations ∧ t'.batch_count = t.batch_count ∧
  t.completed ≤ t'.completed ∧ t.success ≤ t'.success ∧ t.failed ≤ t'.failed

/-! ## Concrete witness data -/

/-- A parsed cookie used by the witness states. -/
def tinyCookie : Cookie :=
  { name := "c_user", value := "1", domain := ".facebook.com", path := "/",
    secure := true, httpOnly := true }

/-- A queued single-operation task, as created by an accepted submission. -/
def queuedT : Task :=
  { id := "t1", status := "queued", progress := 0, total := 1,
    completed := 0, success := 0, failed := 0, cookies := [tinyCookie],
    messages := ["m"], conversations := ["c"], batch_count := 1,
    batch_delay := 5, time_delay := 10, isStopped := false, user_id := "u" }

/-- A state holding one queued task waiting in the admission queue. -/
def queuedState : State :=
  { tasks := [("t1", queuedT)], logs := [("t1", [])], queue := ["t1"],
    activeTasks := 0, runners := [], deliveries := [] }

/-- A state holding one freshly promoted running task suspended at its
first delivery. -/
def runningState : State :=
  { tasks := [("t1", { queuedT with status := "running" })],
    logs := [("t1", [])], queue := [], activeTasks := 1,
    runners := [("t1", PC.delivering 0)], deliveries := [("t1", 0)] }

/-- A submission event with one cookie, one message, one conversation. -/
def smallSubmit (r : Nat) (u : String) : Event :=
  .submit r u "c_user=1" "m" "c" 1 5 10

/-- The trace exhibiting the admission-ceiling violation: one task is
admitted, `stop-all` resets `activeTasks` to `0` while that task's loop is
still in flight, the loop then terminates and the `finally` block drives
`activeTasks` to `-1`, after which 41 back-to-back submissions are all
admitted immediately (each user stays below the per-user cap). -/
def c2Trace : List Event :=
  [smallSubmit 0 "u0", .stopAll, .deliverReturn "h4rsh_1000" true] ++
  (List.range 41).map (fun i => smallSubmit (i + 1) ("u" ++ (i + 1).repr))

/-! # Basic lemmas about the map primitives -/

theorem lookupA_setA_self {α : Type} (l : List (String × α)) (id : String)
    (v : α) : lookupA (setA l id v) id = some v := by
  induction l with
  | nil => simp [setA, lookupA]
  | cons p l ih =>
    obtain ⟨k, w⟩ := p
    by_cases h : k = id <;> simp [setA, lookupA, h, ih]

theorem lookupA_setA_ne {α : Type} (l : List (String × α)) (id id' : String)
    (v : α) (h : id' ≠ id) :
    lookupA (setA l id v) id' = lookupA l id' := by
  induction l with
  | nil => simp [setA, lookupA, Ne.symm h]
  | cons p l ih =>
    obtain ⟨k, w⟩ := p
    by_cases hk : k = id
    · subst hk
      simp [setA, lookupA, Ne.symm h, ih]
    · by_cases hk' : k = id' <;>
        simp [setA, lookupA, hk, hk', ih, h, Ne.symm h]

theorem setA_self {α : Type} (l : List (String × α)) (id : String) (v : α)
    (h : lookupA l id = some v) : setA l id v = l := by
  induction l with
  | nil => simp [lookupA] at h
  | cons p l ih =>
    obtain ⟨k, w⟩ := p
    by_cases hk : k = id
    · subst hk
      simp [lookupA] at h
      simp [setA, h]
    · simp [lookupA, hk] at h
      simp [setA, hk, ih h]

theorem lookupA_mem {α : Type} (l : List (String × α)) (id : String) (v : α)
    (h : lookupA l id = some v) : (id, v) ∈ l := by
  induction l with
  | nil => simp [lookupA] at h
  | cons p l ih =>
    obtain ⟨k, w⟩ := p
    by_cases hk : k = id
    · subst hk
      simp [lookupA] at h
      simp [h]
    · simp [lookupA, hk] at h
      simp [ih h]

theorem mem_setA {α : Type} (l : List (String × α)) (id : String) (v : α)
    (p : String × α) (h : p ∈ setA l id v) : p = (id, v) ∨ p ∈ l := by
  induction l with
  | nil => simpa [setA] using h
  | cons q l ih =>
    obtain ⟨k, w⟩ := q
    by_cases hk : k = id
    · subst hk
      simp [setA] at h
      rcases h with h | h
      · exact Or.inl h
      · exact Or.inr (by simp [h])
    · simp [setA, hk] at h
      rcases h with h | h
      · exact Or.inr (by simp [h])
      · rcases ih h with h' | h'
        · exact Or.inl h'
        · exact Or.inr (by simp [h'])

theorem mem_setA_of_nodup {α : Type} (l : List (String × α)) (id : String)
    (v : α) (p : String × α) (hnd : (keysOf l).Nodup) (h : p ∈ setA l id v) :
    p = (id, v) ∨ (p ∈ l ∧ p.1 ≠ id) := by
  induction l with
  | nil => simpa [setA] using h
  | cons q l ih =>
    obtain ⟨k, w⟩ := q
    simp [keysOf] at hnd
    by_cases hk : k = id
    · subst hk
      simp [setA] at h
      rcases h with h | h
      · exact Or.inl h
      · refine Or.inr ⟨by simp [h], ?_⟩
        intro hp
        exact hnd.1 p.2 (by simpa [← hp] using h)
    · simp [setA, hk] at h
      rcases h with h | h
      · exact Or.inr ⟨by simp [h], by simp [h, hk]⟩
      · rcases ih hnd.2 h with h' | h'
        · exact Or.inl h'
        · exact Or.inr ⟨by simp [h'.1], h'.2⟩

theorem setA_of_lookup_none {α : Type} (l : List (String × α)) (id : String)
    (v : α) (h : lookupA l id = none) : setA l id v = l ++ [(id, v)] := by
  induction l with
  | nil => simp [setA]
  | cons p l ih =>
    obtain ⟨k, w⟩ := p
    by_cases hk : k = id
    · simp [lookupA, hk] at h
    · simp [lookupA, hk] at h
      simp [setA, hk, ih h]

theorem keysOf_setA_of_isSome {α : Type} (l : List (String × α))
    (id : String) (v : α) (h : (lookupA l id).isSome) :
    keysOf (setA l id v) = keysOf l := by
  induction l with
  | nil => simp [lookupA] at h
  | cons p l ih =>
    obtain ⟨k, w⟩ := p
    by_cases hk : k = id
    · subst hk
      simp [setA, keysOf]
    · simp [lookupA, hk] at h
      simp [setA, keysOf, hk] at ih ⊢
      exact ih h

theorem lookupA_eq_none_iff {α : Type} (l : List (String × α))
    (id : String) : lookupA l id = none ↔ id ∉ keysOf l := by
  induction l with
  | nil => simp [lookupA, keysOf]
  | cons p l ih =>
    obtain ⟨k, w⟩ := p
    by_cases hk : k = id
    · subst hk
      simp [lookupA, keysOf]
    · simp [lookupA, keysOf, hk, Ne.symm hk, ih]

theorem exists_of_mem_keysOf {α : Type} (l : List (String × α))
    (id : String) (h : id ∈ keysOf l) : ∃ v, (id, v) ∈ l := by
  induction l with
  | nil => simp [keysOf] at h
  | cons p l ih =>
    obtain ⟨k, w⟩ := p
    rcases List.mem_cons.mp h with h' | h'
    · exact ⟨w, by simp [show id = k from h']⟩
    · obtain ⟨v, hv⟩ := ih h'
      exact ⟨v, by simp [hv]⟩

theorem eraseKey_sublist {α : Type} (l : List (String × α)) (id : String) :
    (eraseKey l id).Sublist l := by
  induction l with
  | nil => simp [eraseKey]
  | cons p l ih =>
    obtain ⟨k, w⟩ := p
    by_cases hk : k = id
    · subst hk
      simp only [eraseKey, if_pos]
      exact List.sublist_cons_self (k, w) l
    · simp only [eraseKey, hk, if_neg, ite_false]
      exact ih.cons₂ (k, w)

theorem keysOf_eraseKey_sublist {α : Type} (l : List (String × α))
    (id : String) : (keysOf (eraseKey l id)).Sublist (keysOf l) :=
  List.Sublist.map Prod.fst (eraseKey_sublist l id)

theorem mem_eraseKey_of_nodup {α : Type} (l : List (String × α))
    (id : String) (p : String × α) (hnd : (keysOf l).Nodup)
    (h : p ∈ eraseKey l id) : p ∈ l ∧ p.1 ≠ id := by
  induction l with
  | nil => simp [eraseKey] at h
  | cons q l ih =>
    obtain ⟨k, w⟩ := q
    simp [keysOf] at hnd
    by_cases hk : k = id
    · subst hk
      simp [eraseKey] at h
      refine ⟨by simp [h], ?_⟩
      intro hp
      exact hnd.1 p.2 (by simpa [← hp] using h)
    · simp [eraseKey, hk] at h
      rcases h with h | h
      · exact ⟨by simp [h], by simp [h, hk]⟩
      · obtain ⟨h1, h2⟩ := ih hnd.2 h
        exact ⟨by simp [h1], h2⟩

theorem lookupA_eraseKey_none {α : Type} (l : List (String × α))
    (id id' : String) (h : lookupA l id = none) :
    lookupA (eraseKey l id') id = none := by
  rw [lookupA_eq_none_iff] at h ⊢
  intro hmem
  exact h ((keysOf_eraseKey_sublist l id').mem hmem)

theorem count_eraseFirst_not_mem (l : List String) (id : String)
    (h : l.count id ≤ 1) : id ∉ eraseFirst l id := by
  induction l with
  | nil => simp [eraseFirst]
  | cons x l ih =>
    by_cases hx : x = id
    · subst hx
      simp [List.count_cons] at h
      simp [eraseFirst]
      intro hmem
      have := List.count_pos_iff.mpr hmem
      omega
    · simp [List.count_cons, hx] at h
      simp [eraseFirst, hx]
      exact ⟨Ne.symm hx, ih h⟩

theorem eraseFirst_of_not_mem (l : List String) (id : String)
    (h : id ∉ l) : eraseFirst l id = l := by
  induction l with
  | nil => simp [eraseFirst]
  | cons x l ih =>
    simp at h
    simp [eraseFirst, Ne.symm h.1, ih h.2]

/-! # State-projection lemmas -/

theorem pushLog_tasks (s : State) (id e : String) :
    (pushLog s id e).tasks = s.tasks := rfl

theorem pushLog_runners (s : State) (id e : String) :
    (pushLog s id e).runners = s.runners := rfl

theorem pushLog_queue (s : State) (id e : String) :
    (pushLog s id e).queue = s.queue := rfl

theorem pushLog_deliveries (s : State) (id e : String) :
    (pushLog s id e).deliveries = s.deliveries := rfl

theorem pushLog_activeTasks (s : State) (id e : String) :
    (pushLog s id e).activeTasks = s.activeTasks := rfl

/-! # Claim C10: unknown-id log queries succeed with an empty list -/

/-- C10: querying logs for a task identifier absent from the log store
returns the successful response with an empty sequence of entries, while
the status query for the same unknown identifier returns the
`Task not found` error (modelled as `none`). -/
theorem c10_unknown_id_logs_vs_task (s : State) (id : String)
    (h1 : lookupA s.logs id = none) (h2 : lookupA s.tasks id = none) :
    getLogsResp s id = [] ∧ getTaskResp s id = none := by
  constructor
  · simp [getLogsResp, h1]
  · simp [getTaskResp, h2]

/-- Witness for C10 at the empty state and an arbitrary identifier. -/
theorem c10_witness :
    lookupA initState.logs "nope" = none ∧
      lookupA initState.tasks "nope" = none ∧
      (getLogsResp initState "nope" = [] ∧
        getTaskResp initState "nope" = none) :=
  ⟨by decide, by decide,
    c10_unknown_id_logs_vs_task initState "nope" (by decide) (by decide)⟩

/-! # Claim C2: the concurrency ceiling can be exceeded -/

set_option maxRecDepth 100000 in
/-- C2: after `stop-all` resets `activeTasks` to zero while an admitted
task's loop is still in flight, that loop's `finally` block drives the
counter to `-1`; 41 subsequent submissions are then all admitted at once,
so 41 tasks are simultaneously `running` although `MAX_CONCURRENT_TASKS`
is 40.  The admission guard reads the corrupted `activeTasks` counter, not
the actual number of running tasks. -/
theorem c2_ceiling_exceeded :
    runningCount (runEvents c2Trace) = 41 ∧ MAX_CONCURRENT_TASKS = 40 := by
  constructor
  · decide
  · decide

/-! # Claim C8: message enhancement can shorten the input -/

/-- C8 counterexample: on the input `"a  b"` (length 4) with random draws
that insert no emoji, `enhanceMessage` trims and re-joins the words with
single spaces and returns `"a b"` (length 3), so the output length is not
always at least the input length. -/
theorem c8_counterexample :
    ¬ ("a  b".data.length ≤ (enhanceMessage noEmoji "a  b".data).length) :=
  by decide

theorem joinChar_cons_of_ne (sep : Char) (w : List Char)
    (ws : List (List Char)) (h : ws ≠ []) :
    joinChar sep (w :: ws) = w ++ sep :: joinChar sep ws := by
  cases ws with
  | nil => exact absurd rfl h
  | cons x xs => rfl

theorem midWalk_ne_nil (r : ERand) (i : Nat) (l : List (List Char))
    (h : l ≠ []) : midWalk r i l ≠ [] := by
  cases l with
  | nil => exact absurd rfl h
  | cons w ws =>
    cases ws with
    | nil => simp [midWalk]
    | cons x xs =>
      by_cases hb : r.midB i <;> simp [midWalk, hb]

theorem len_le_joinChar_midWalk (r : ERand) :
    ∀ (l : List (List Char)) (i : Nat),
      (joinChar ' ' l).length ≤ (joinChar ' ' (midWalk r i l)).length := by
  intro l
  induction l with
  | nil => intro i; simp [midWalk]
  | cons w ws ih =>
    intro i
    cases ws with
    | nil => simp [midWalk]
    | cons x xs =>
      have hM : midWalk r (i + 1) (x :: xs) ≠ [] :=
        midWalk_ne_nil r (i + 1) (x :: xs) (by simp)
      have hstep := ih (i + 1)
      by_cases hb : r.midB i
      · rw [show midWalk r i (w :: x :: xs)
            = w :: r.midS i :: midWalk r (i + 1) (x :: xs) by
              simp [midWalk, hb]]
        rw [joinChar_cons_of_ne ' ' w (x :: xs) (by simp),
          joinChar_cons_of_ne ' ' w (r.midS i :: midWalk r (i + 1) (x :: xs))
            (by simp),
          joinChar_cons_of_ne ' ' (r.midS i) (midWalk r (i + 1) (x :: xs)) hM]
        simp only [List.length_append, List.length_cons]
        omega
      · rw [show midWalk r i (w :: x :: xs)
            = w :: midWalk r (i + 1) (x :: xs) by simp [midWalk, hb]]
        rw [joinChar_cons_of_ne ' ' w (x :: xs) (by simp),
          joinChar_cons_of_ne ' ' w (midWalk r (i + 1) (x :: xs)) hM]
        simp only [List.length_append, List.length_cons]
        omega

theorem len_le_joinChar_cons (x : List Char) (l : List (List Char)) :
    (joinChar ' ' l).length ≤ (joinChar ' ' (x :: l)).length := by
  cases l with
  | nil => simp [joinChar]
  | cons w ws =>
    rw [joinChar_cons_of_ne ' ' x (w :: ws) (by simp)]
    simp only [List.length_append, List.length_cons]
    omega

theorem len_le_joinChar_append_single (l : List (List Char)) (x : List Char) :
    (joinChar ' ' l).length ≤ (joinChar ' ' (l ++ [x])).length := by
  induction l with
  | nil => simp [joinChar]
  | cons w ws ih =>
    cases ws with
    | nil =>
      simp only [joinChar, List.nil_append, List.cons_append,
        List.length_append, List.length_cons]
      omega
    | cons v vs =>
      rw [joinChar_cons_of_ne ' ' w (v :: vs) (by simp),
        show (w :: v :: vs) ++ [x] = w :: ((v :: vs) ++ [x]) by simp,
        joinChar_cons_of_ne ' ' w ((v :: vs) ++ [x]) (by simp)]
      simp only [List.length_append, List.length_cons]
      omega

/-- C8 (amended): for every randomness oracle and every input,
`enhanceMessage` returns a string at least as long as the
whitespace-normal form of the input (trimmed, with internal whitespace
runs collapsed to single spaces).  The originally claimed bound against
the raw input length fails exactly because the normalization can shorten
the input (see the counterexample). -/
theorem c8_length_lower_bound (r : ERand) (m : List Char) :
    (wsNormalize m).length ≤ (enhanceMessage r m).length := by
  by_cases h : jsTrim m = []
  · simp [wsNormalize, enhanceMessage, h, wsWords, wsWordsAux, joinChar]
  · rw [wsNormalize, enhanceMessage, if_neg h]
    have h1 := len_le_joinChar_midWalk r (wsWords (jsTrim m)) 0
    have h2 :
        (joinChar ' ' (midWalk r 0 (wsWords (jsTrim m)))).length ≤
          (joinChar ' '
            (if r.startB then r.startS :: midWalk r 0 (wsWords (jsTrim m))
             else midWalk r 0 (wsWords (jsTrim m)))).length := by
      by_cases hs : r.startB
      · rw [if_pos hs]
        exact len_le_joinChar_cons r.startS _
      · rw [if_neg hs]
    have h3 :
        (joinChar ' '
          (if r.startB then r.startS :: midWalk r 0 (wsWords (jsTrim m))
           else midWalk r 0 (wsWords (jsTrim m)))).length ≤
        (joinChar ' '
          (if r.endB then
            (if r.startB then r.startS :: midWalk r 0 (wsWords (jsTrim m))
             else midWalk r 0 (wsWords (jsTrim m))) ++ [r.endS]
           else
            (if r.startB then r.startS :: midWalk r 0 (wsWords (jsTrim m))
             else midWalk r 0 (wsWords (jsTrim m))))).length := by
      by_cases he : r.endB
      · rw [if_pos he]
        exact len_le_joinChar_append_single _ r.endS
      · rw [if_neg he]
    exact le_trans h1 (le_trans h2 h3)

/-! # Lemmas about the admission loop -/

theorem spawn_queue (s : State) (id : String) (t : Task) :
    (spawn s id t).queue = s.queue := by
  by_cases h : numOps { t with status := "running" } = 0 <;>
    simp [spawn, pushLog, h]

theorem spawn_tasks (s : State) (id : String) (t : Task) :
    (spawn s id t).tasks =
      if numOps { t with status := "running" } = 0 then
        setA (setA s.tasks id { t with status := "running" }) id
          (finalizeStatus { t with status := "running" })
      else setA s.tasks id { t with status := "running" } := by
  by_cases h0 : numOps { t with status := "running" } = 0 <;>
    simp [spawn, pushLog, h0]

theorem spawn_runners (s : State) (id : String) (t : Task) :
    (spawn s id t).runners =
      if numOps { t with status := "running" } = 0 then s.runners
      else (id, PC.delivering 0) :: s.runners := by
  by_cases h0 : numOps { t with status := "running" } = 0 <;>
    simp [spawn, pushLog, h0]

theorem spawn_deliveries (s : State) (id : String) (t : Task) :
    (spawn s id t).deliveries =
      if numOps { t with status := "running" } = 0 then s.deliveries
      else s.deliveries ++ [(id, 0)] := by
  by_cases h0 : numOps { t with status := "running" } = 0 <;>
    simp [spawn, pushLog, h0]

theorem spawn_lookup_ne (s : State) (id id' : String) (t : Task)
    (h : id' ≠ id) :
    lookupA (spawn s id t).tasks id' = lookupA s.tasks id' := by
  by_cases h0 : numOps { t with status := "running" } = 0 <;>
    simp [spawn, pushLog, h0, lookupA_setA_ne _ _ _ _ h]

theorem spawn_lookup_self (s : State) (id : String) (t : Task) :
    lookupA (spawn s id t).tasks id =
      some (if numOps { t with status := "running" } = 0 then
        finalizeStatus { t with status := "running" }
      else { t with status := "running" }) := by
  by_cases h0 : numOps { t with status := "running" } = 0 <;>
    simp [spawn, pushLog, h0, lookupA_setA_self]

theorem ptqAux_lookup_not_mem (fuel : Nat) :
    ∀ (s : State) (id : String), id ∉ s.queue →
      lookupA (ptqAux fuel s).tasks id = lookupA s.tasks id := by
  induction fuel with
  | zero => intro s id _; rfl
  | succ fuel ih =>
    intro s id hid
    rw [ptqAux]
    by_cases hact : s.activeTasks < MAX_CONCURRENT_TASKS
    · rw [if_pos hact]
      cases hq : s.queue with
      | nil => rfl
      | cons id0 rest =>
        rw [hq] at hid
        simp at hid
        cases hlk : lookupA ({ s with queue := rest } : State).tasks id0 with
        | none =>
          simp only [hlk]
          rw [ih _ id (by simpa using hid.2)]
        | some t0 =>
          simp only [hlk]
          by_cases hg : t0.status = "queued" && !t0.isStopped
          · rw [if_pos hg,
              ih _ id (by rw [spawn_queue]; simpa using hid.2),
              spawn_lookup_ne _ _ _ _ (by simpa using hid.1)]
          · rw [if_neg hg, ih _ id (by simpa using hid.2)]
    · rw [if_neg hact]

theorem ptqAux_lookup_not_queued (fuel : Nat) :
    ∀ (s : State) (id : String) (t : Task), lookupA s.tasks id = some t →
      t.status ≠ "queued" →
      lookupA (ptqAux fuel s).tasks id = some t := by
  induction fuel with
  | zero => intro s id t ht _; exact ht
  | succ fuel ih =>
    intro s id t ht hst
    rw [ptqAux]
    by_cases hact : s.activeTasks < MAX_CONCURRENT_TASKS
    · rw [if_pos hact]
      cases hq : s.queue with
      | nil => exact ht
      | cons id0 rest =>
        by_cases hid0 : id0 = id
        · subst hid0
          have : lookupA ({ s with queue := rest } : State).tasks id0
              = some t := ht
          simp only [this]
          have hg : ¬(t.status = "queued" && !t.isStopped) = true := by
            simp [hst]
          rw [if_neg hg]
          exact ih _ id0 t ht hst
        · cases hlk : lookupA ({ s with queue := rest } : State).tasks id0
            with
          | none =>
            simp only [hlk]
            exact ih _ id t ht hst
          | some t0 =>
            simp only [hlk]
            by_cases hg : t0.status = "queued" && !t0.isStopped
            · rw [if_pos hg]
              refine ih _ id t ?_ hst
              rw [spawn_lookup_ne _ _ _ _ (fun h => hid0 (Eq.symm h))]
              exact ht
            · rw [if_neg hg]
              exact ih _ id t ht hst
    · rw [if_neg hact]
      exact ht

/-! # Evolution of a fixed registry entry under events -/

theorem taskEvol_refl (t : Task) : taskEvol t t := by
  simp [taskEvol]

theorem taskEvol_trans {t t' t'' : Task} (h1 : taskEvol t t')
    (h2 : taskEvol t' t'') : taskEvol t t'' := by
  obtain ⟨a1, a2, a3, a4, a5, a6, a7⟩ := h1
  obtain ⟨b1, b2, b3, b4, b5, b6, b7⟩ := h2
  exact ⟨b1.trans a1, b2.trans a2, b3.trans a3, b4.trans a4,
    a5.trans b5, a6.trans b6, a7.trans b7⟩

theorem taskEvol_opComplete (t : Task) (outcome : Bool) :
    taskEvol t (opComplete t outcome) := by
  cases outcome <;> simp [taskEvol, opComplete]

theorem exists_evol_trans {s' : State} {id : String} {t t1 : Task}
    (h1 : taskEvol t t1)
    (h2 : ∃ t', lookupA s'.tasks id = some t' ∧ taskEvol t1 t') :
    ∃ t', lookupA s'.tasks id = some t' ∧ taskEvol t t' := by
  obtain ⟨t', ht', hev⟩ := h2
  exact ⟨t', ht', taskEvol_trans h1 hev⟩

theorem taskEvol_status (t : Task) (st : String) :
    taskEvol t { t with status := st } := by
  simp [taskEvol]

theorem taskEvol_finalize (t : Task) : taskEvol t (finalizeStatus t) := by
  simp [taskEvol, finalizeStatus]

theorem taskEvol_stopFlag (t : Task) :
    taskEvol t { t with isStopped := true, status := "stopped" } := by
  simp [taskEvol]

theorem ptqAux_evol (fuel : Nat) :
    ∀ (s : State) (id : String) (t : Task), lookupA s.tasks id = some t →
      ∃ t', lookupA (ptqAux fuel s).tasks id = some t' ∧ taskEvol t t' := by
  induction fuel with
  | zero => intro s id t ht; exact ⟨t, ht, taskEvol_refl t⟩
  | succ fuel ih =>
    intro s id t ht
    rw [ptqAux]
    by_cases hact : s.activeTasks < MAX_CONCURRENT_TASKS
    · rw [if_pos hact]
      cases hq : s.queue with
      | nil => exact ⟨t, ht, taskEvol_refl t⟩
      | cons id0 rest =>
        cases hlk : lookupA ({ s with queue := rest } : State).tasks id0 with
        | none =>
          simp only [hlk]
          exact ih _ id t ht
        | some t0 =>
          simp only [hlk]
          by_cases hg : t0.status = "queued" && !t0.isStopped
          · rw [if_pos hg]
            by_cases hid0 : id0 = id
            · subst hid0
              have ht0 : t0 = t := by
                have : lookupA ({ s with queue := rest } : State).tasks id0
                    = some t := ht
                rw [this] at hlk
                exact (Option.some.injEq _ _).mp hlk.symm
              subst ht0
              have hself := spawn_lookup_self
                ({ s with queue := rest } : State) id0 t0
              obtain ⟨t', ht', hev⟩ := ih _ id0 _ hself
              refine ⟨t', ht', taskEvol_trans ?_ hev⟩
              by_cases h0 : numOps { t0 with status := "running" } = 0
              · rw [if_pos h0]
                exact taskEvol_trans (taskEvol_status t0 "running")
                  (taskEvol_finalize _)
              · rw [if_neg h0]
                exact taskEvol_status t0 "running"
            · have : lookupA (spawn ({ s with queue := rest } : State)
                  id0 t0).tasks id = some t := by
                rw [spawn_lookup_ne _ _ _ _ (fun h => hid0 h.symm)]
                exact ht
              exact ih _ id t this
          · rw [if_neg hg]
            exact ih _ id t ht
    · rw [if_neg hact]
      exact ⟨t, ht, taskEvol_refl t⟩

theorem finishRunner_lookup_self (s : State) (id : String) (t : Task) :
    lookupA (finishRunner s id t).tasks id = some (finalizeStatus t) := by
  rw [finishRunner, processTaskQueue]
  refine ptqAux_lookup_not_queued _ _ _ _ ?_ ?_
  · rw [pushLog_tasks]
    exact lookupA_setA_self _ _ _
  · rw [finalizeStatus]
    by_cases hs : t.isStopped <;> simp [hs]

theorem finishRunner_evol_ne (s : State) (id id' : String) (t t0 : Task)
    (hne : id' ≠ id) (ht : lookupA s.tasks id' = some t0) :
    ∃ t', lookupA (finishRunner s id t).tasks id' = some t' ∧
      taskEvol t0 t' := by
  rw [finishRunner, processTaskQueue]
  refine ptqAux_evol _ _ _ _ ?_
  rw [pushLog_tasks, lookupA_setA_ne _ _ _ _ hne]
  exact ht

theorem stopAllVisit_evol (acc : State) (id0 id : String) (t : Task)
    (ht : lookupA acc.tasks id = some t) :
    ∃ t', lookupA (stopAllVisit acc id0).tasks id = some t' ∧
      taskEvol t t' := by
  rw [stopAllVisit]
  cases hlk : lookupA acc.tasks id0 with
  | none => exact ⟨t, ht, taskEvol_refl t⟩
  | some t0 =>
    simp only [hlk]
    by_cases hg : t0.status = "running" ∨ t0.status = "queued"
    · rw [if_pos hg]
      by_cases hid0 : id0 = id
      · subst hid0
        rw [ht] at hlk
        obtain rfl : t0 = t := (Option.some.injEq _ _).mp hlk.symm
        refine ⟨_, ?_, taskEvol_stopFlag t0⟩
        rw [pushLog_tasks]
        exact lookupA_setA_self _ _ _
      · refine ⟨t, ?_, taskEvol_refl t⟩
        rw [pushLog_tasks, lookupA_setA_ne _ _ _ _ (fun h => hid0 h.symm)]
        exact ht
    · rw [if_neg hg]
      exact ⟨t, ht, taskEvol_refl t⟩

theorem stopAll_fold_evol :
    ∀ (ids : List String) (s : State) (id : String) (t : Task),
      lookupA s.tasks id = some t →
      ∃ t', lookupA (ids.foldl stopAllVisit s).tasks id = some t' ∧
        taskEvol t t' := by
  intro ids
  induction ids with
  | nil => intro s id t ht; exact ⟨t, ht, taskEvol_refl t⟩
  | cons id0 rest ih =>
    intro s id t ht
    obtain ⟨t1, ht1, hev1⟩ := stopAllVisit_evol s id0 id t ht
    obtain ⟨t', ht', hev2⟩ := ih (stopAllVisit s id0) id t1 ht1
    exact ⟨t', ht', taskEvol_trans hev1 hev2⟩

theorem submitStep_evol (s : State) (r : Nat) (u c m cv : String)
    (bc bd td : Nat) (id : String) (t : Task)
    (hne : id ≠ generateTaskId r) (ht : lookupA s.tasks id = some t) :
    ∃ t', lookupA (submitStep s r u c m cv bc bd td).tasks id = some t' ∧
      taskEvol t t' := by
  rw [submitStep]
  by_cases h1 : jsTrim c.data = []
  · rw [if_pos h1]; exact ⟨t, ht, taskEvol_refl t⟩
  · rw [if_neg h1]
    by_cases h2 : jsTrim m.data = []
    · rw [if_pos h2]; exact ⟨t, ht, taskEvol_refl t⟩
    · rw [if_neg h2]
      by_cases h3 : jsTrim cv.data = []
      · rw [if_pos h3]; exact ⟨t, ht, taskEvol_refl t⟩
      · rw [if_neg h3]
        by_cases h4 : MAX_TASKS_PER_USER ≤
            (s.tasks.filter
              (fun p => p.2.user_id = u && p.2.status = "running")).length
        · rw [if_pos h4]; exact ⟨t, ht, taskEvol_refl t⟩
        · rw [if_neg h4]
          by_cases h5 : (parseCookies c).length = 0
          · rw [if_pos h5]; exact ⟨t, ht, taskEvol_refl t⟩
          · rw [if_neg h5]
            by_cases h6 : (listField m).length = 0
            · rw [if_pos h6]; exact ⟨t, ht, taskEvol_refl t⟩
            · rw [if_neg h6]
              by_cases h7 : (listField cv).length = 0
              · rw [if_pos h7]; exact ⟨t, ht, taskEvol_refl t⟩
              · rw [if_neg h7]
                rw [processTaskQueue]
                refine ptqAux_evol _ _ _ _ ?_
                rw [pushLog_tasks, lookupA_setA_ne _ _ _ _ hne]
                exact ht

theorem applyEvent_evol (s : State) (e : Event) (id : String) (t : Task)
    (he : submitIdOf e ≠ some id) (ht : lookupA s.tasks id = some t) :
    ∃ t', lookupA (applyEvent s e).tasks id = some t' ∧ taskEvol t t' := by
  cases e with
  | submit r u c m cv bc bd td =>
    have hne : id ≠ generateTaskId r := by
      intro h
      exact he (by simp [submitIdOf, h])
    exact submitStep_evol s r u c m cv bc bd td id t hne ht
  | stopTask id' =>
    show ∃ t', lookupA (stopTaskStep s id').tasks id = some t' ∧ taskEvol t t'
    cases hlk : lookupA s.tasks id' with
    | none => rw [stopTaskStep, hlk]; exact ⟨t, ht, taskEvol_refl t⟩
    | some t0 =>
      by_cases hid : id' = id
      · subst hid
        rw [ht] at hlk
        obtain rfl : t0 = t := (Option.some.injEq _ _).mp hlk.symm
        refine ⟨_, ?_, taskEvol_stopFlag t0⟩
        simp only [stopTaskStep, ht, pushLog_tasks]
        exact lookupA_setA_self _ _ _
      · refine ⟨t, ?_, taskEvol_refl t⟩
        simp only [stopTaskStep, hlk, pushLog_tasks]
        rw [lookupA_setA_ne _ _ _ _ (fun h => hid h.symm)]
        exact ht
  | stopAll =>
    show ∃ t', lookupA (stopAllStep s).tasks id = some t' ∧ taskEvol t t'
    rw [stopAllStep]
    obtain ⟨t', ht', hev⟩ := stopAll_fold_evol (keysOf s.tasks) s id t ht
    exact ⟨t', ht', hev⟩
  | deliverReturn id' outcome =>
    show ∃ t', lookupA ((match lookupA s.runners id' with
      | some (PC.delivering k) => deliverReturnStep s id' k outcome
      | _ => s) : State).tasks id = some t' ∧ taskEvol t t'
    cases hr : lookupA s.runners id' with
    | none => simp only [hr]; exact ⟨t, ht, taskEvol_refl t⟩
    | some pc =>
      cases pc with
      | ready k => simp only [hr]; exact ⟨t, ht, taskEvol_refl t⟩
      | delivering k =>
        simp only [hr]
        rw [deliverReturnStep]
        cases hlk : lookupA s.tasks id' with
        | none =>
          simp only [hlk]
          exact ⟨t, ht, taskEvol_refl t⟩
        | some t0 =>
          simp only [hlk]
          by_cases hid : id' = id
          · subst hid
            rw [ht] at hlk
            obtain rfl : t0 = t := (Option.some.injEq _ _).mp hlk.symm
            have hl1 : lookupA (pushLog
                { s with tasks := setA s.tasks id' (opComplete t0 outcome) }
                id' (if outcome then "success: Message sent"
                  else "error: Message failed")).tasks id'
                = some (opComplete t0 outcome) := by
              rw [pushLog_tasks]
              exact lookupA_setA_self _ _ _
            by_cases hstop : (opComplete t0 outcome).isStopped
            · rw [if_pos hstop]
              refine ⟨_, finishRunner_lookup_self _ _ _,
                taskEvol_trans (taskEvol_opComplete t0 outcome)
                  (taskEvol_finalize _)⟩
            · rw [if_neg hstop]
              by_cases hk : k + 1 < numOps (opComplete t0 outcome)
              · rw [if_pos hk]
                by_cases hlt : (opComplete t0 outcome).completed <
                    (opComplete t0 outcome).total
                · rw [if_pos hlt]
                  exact ⟨_, hl1, taskEvol_opComplete t0 outcome⟩
                · rw [if_neg hlt]
                  exact ⟨_, hl1, taskEvol_opComplete t0 outcome⟩
              · rw [if_neg hk]
                refine ⟨_, finishRunner_lookup_self _ _ _,
                  taskEvol_trans (taskEvol_opComplete t0 outcome)
                    (taskEvol_finalize _)⟩
          · have hne : id ≠ id' := fun h => hid h.symm
            have hl1 : lookupA (pushLog
                { s with tasks := setA s.tasks id' (opComplete t0 outcome) }
                id' (if outcome then "success: Message sent"
                  else "error: Message failed")).tasks id = some t := by
              rw [pushLog_tasks, lookupA_setA_ne _ _ _ _ hne]
              exact ht
            by_cases hstop : (opComplete t0 outcome).isStopped
            · rw [if_pos hstop]
              exact finishRunner_evol_ne _ _ _ _ _ hne hl1
            · rw [if_neg hstop]
              by_cases hk : k + 1 < numOps (opComplete t0 outcome)
              · rw [if_pos hk]
                by_cases hlt : (opComplete t0 outcome).completed <
                    (opComplete t0 outcome).total
                · rw [if_pos hlt]
                  exact ⟨t, hl1, taskEvol_refl t⟩
                · rw [if_neg hlt]
                  exact ⟨t, hl1, taskEvol_refl t⟩
              · rw [if_neg hk]
                exact finishRunner_evol_ne _ _ _ _ _ hne hl1
  | wake id' =>
    show ∃ t', lookupA ((match lookupA s.runners id' with
      | some (PC.ready k) => wakeStep s id' k
      | _ => s) : State).tasks id = some t' ∧ taskEvol t t'
    cases hr : lookupA s.runners id' with
    | none => simp only [hr]; exact ⟨t, ht, taskEvol_refl t⟩
    | some pc =>
      cases pc with
      | delivering k => simp only [hr]; exact ⟨t, ht, taskEvol_refl t⟩
      | ready k =>
        simp only [hr]
        rw [wakeStep]
        cases hlk : lookupA s.tasks id' with
        | none =>
          simp only [hlk]
          exact ⟨t, ht, taskEvol_refl t⟩
        | some t0 =>
          simp only [hlk]
          by_cases hstop : t0.isStopped
          · rw [if_pos hstop]
            by_cases hid : id' = id
            · subst hid
              rw [ht] at hlk
              obtain rfl : t0 = t := (Option.some.injEq _ _).mp hlk.symm
              exact ⟨_, finishRunner_lookup_self _ _ _, taskEvol_finalize t0⟩
            · exact finishRunner_evol_ne _ _ _ _ _ (fun h => hid h.symm) ht
          · rw [if_neg hstop]
            exact ⟨t, ht, taskEvol_refl t⟩
  | structuralError id' =>
    show ∃ t', lookupA (structuralErrorStep s id').tasks id = some t' ∧
      taskEvol t t'
    rw [structuralErrorStep]
    cases hr : lookupA s.runners id' with
    | none =>
      cases hlk : lookupA s.tasks id' <;> simp only [hlk] <;>
        exact ⟨t, ht, taskEvol_refl t⟩
    | some pc =>
      simp only
      cases hlk : lookupA s.tasks id' with
      | none =>
        simp only [hlk]
        exact ⟨t, ht, taskEvol_refl t⟩
      | some t0 =>
        simp only [hlk]
        rw [processTaskQueue]
        by_cases hid : id' = id
        · subst hid
          rw [ht] at hlk
          obtain rfl : t0 = t := (Option.some.injEq _ _).mp hlk.symm
          refine exists_evol_trans (taskEvol_status t0 "error") ?_
          refine ptqAux_evol _ _ _ _ ?_
          rw [pushLog_tasks]
          exact lookupA_setA_self _ _ _
        · refine ptqAux_evol _ _ _ _ ?_
          rw [pushLog_tasks, lookupA_setA_ne _ _ _ _ (fun h => hid h.symm)]
          exact ht

/-! # The unconditional registry invariant -/

theorem baseOK_opComplete {t : Task} (h : baseOK t) (outcome : Bool) :
    baseOK (opComplete t outcome) := by
  obtain ⟨h1, h2⟩ := h
  cases outcome <;> simp [baseOK, opComplete, numOps] at * <;>
    exact ⟨h1, h2⟩

theorem baseOK_setStatus {t : Task} (h : baseOK t) (st : String)
    (hst : st ∈
      (["queued", "running", "completed", "stopped", "error"] :
        List String)) : baseOK { t with status := st } := by
  obtain ⟨_, h2⟩ := h
  exact ⟨hst, by simpa [numOps] using h2⟩

theorem baseOK_finalize {t : Task} (h : baseOK t) :
    baseOK (finalizeStatus t) := by
  rw [finalizeStatus]
  by_cases hs : t.isStopped
  · rw [if_pos hs]
    exact baseOK_setStatus h _ (by simp)
  · rw [if_neg hs]
    exact baseOK_setStatus h _ (by simp)

theorem baseOK_stopFlag {t : Task} (h : baseOK t) :
    baseOK { t with isStopped := true, status := "stopped" } := by
  obtain ⟨_, h2⟩ := h
  exact ⟨by simp, by simpa [numOps] using h2⟩

theorem BInv_set (l : List (String × Task)) (id : String) (v : Task)
    (h : ∀ p ∈ l, baseOK p.2) (hv : baseOK v) :
    ∀ p ∈ setA l id v, baseOK p.2 := by
  intro p hp
  rcases mem_setA l id v p hp with h' | h'
  · rw [h']; exact hv
  · exact h p h'

theorem BInv_pushLog (s : State) (id e : String) (h : BInv s) :
    BInv (pushLog s id e) := by
  intro p hp
  rw [pushLog_tasks] at hp
  exact h p hp

theorem BInv_spawn (s : State) (id : String) (t : Task) (h : BInv s)
    (ht : baseOK t) : BInv (spawn s id t) := by
  have h1 : baseOK { t with status := "running" } :=
    baseOK_setStatus ht _ (by simp)
  intro p hp
  rw [spawn_tasks] at hp
  by_cases h0 : numOps { t with status := "running" } = 0
  · rw [if_pos h0] at hp
    exact BInv_set (setA s.tasks id { t with status := "running" }) id
      (finalizeStatus { t with status := "running" })
      (BInv_set s.tasks id { t with status := "running" } h h1)
      (baseOK_finalize h1) p hp
  · rw [if_neg h0] at hp
    exact BInv_set s.tasks id { t with status := "running" } h h1 p hp

theorem BInv_ptqAux (fuel : Nat) :
    ∀ s : State, BInv s → BInv (ptqAux fuel s) := by
  induction fuel with
  | zero => intro s h; exact h
  | succ fuel ih =>
    intro s h
    rw [ptqAux]
    by_cases hact : s.activeTasks < MAX_CONCURRENT_TASKS
    · rw [if_pos hact]
      cases hq : s.queue with
      | nil => exact h
      | cons id0 rest =>
        cases hlk : lookupA ({ s with queue := rest } : State).tasks id0 with
        | none => simp only [hlk]; exact ih _ h
        | some t0 =>
          simp only [hlk]
          by_cases hg : t0.status = "queued" && !t0.isStopped
          · rw [if_pos hg]
            refine ih _ (BInv_spawn _ _ _ h ?_)
            exact h _ (lookupA_mem _ _ _ hlk)
          · rw [if_neg hg]
            exact ih _ h
    · rw [if_neg hact]
      exact h

theorem BInv_finishRunner (s : State) (id : String) (t : Task) (h : BInv s)
    (ht : baseOK t) : BInv (finishRunner s id t) := by
  rw [finishRunner, processTaskQueue]
  refine BInv_ptqAux _ _ ?_
  intro p hp
  rw [pushLog_tasks] at hp
  exact BInv_set _ _ _ h (baseOK_finalize ht) p hp

theorem BInv_applyEvent (s : State) (e : Event) (h : BInv s) :
    BInv (applyEvent s e) := by
  cases e with
  | submit r u c m cv bc bd td =>
    show BInv (submitStep s r u c m cv bc bd td)
    rw [submitStep]
    by_cases h1 : jsTrim c.data = []
    · rw [if_pos h1]; exact h
    · rw [if_neg h1]
      by_cases h2 : jsTrim m.data = []
      · rw [if_pos h2]; exact h
      · rw [if_neg h2]
        by_cases h3 : jsTrim cv.data = []
        · rw [if_pos h3]; exact h
        · rw [if_neg h3]
          by_cases h4 : MAX_TASKS_PER_USER ≤
              (s.tasks.filter
                (fun p => p.2.user_id = u && p.2.status = "running")).length
          · rw [if_pos h4]; exact h
          · rw [if_neg h4]
            by_cases h5 : (parseCookies c).length = 0
            · rw [if_pos h5]; exact h
            · rw [if_neg h5]
              by_cases h6 : (listField m).length = 0
              · rw [if_pos h6]; exact h
              · rw [if_neg h6]
                by_cases h7 : (listField cv).length = 0
                · rw [if_pos h7]; exact h
                · rw [if_neg h7]
                  rw [processTaskQueue]
                  refine BInv_ptqAux _ _ ?_
                  intro p hp
                  rw [pushLog_tasks] at hp
                  refine BInv_set _ _ _ h ⟨by simp, ?_⟩ p hp
                  simp [numOps]
  | stopTask id =>
    show BInv (stopTaskStep s id)
    cases hlk : lookupA s.tasks id with
    | none => simp only [stopTaskStep, hlk]; exact h
    | some t =>
      simp only [stopTaskStep, hlk]
      intro p hp
      rw [pushLog_tasks] at hp
      exact BInv_set _ _ _ h
        (baseOK_stopFlag (h _ (lookupA_mem _ _ _ hlk))) p hp
  | stopAll =>
    show BInv (stopAllStep s)
    rw [stopAllStep]
    have hfold : ∀ (ids : List String) (s0 : State), BInv s0 →
        BInv (ids.foldl stopAllVisit s0) := by
      intro ids
      induction ids with
      | nil => intro s0 h0; exact h0
      | cons id0 rest ih =>
        intro s0 h0
        refine ih _ ?_
        rw [stopAllVisit]
        cases hlk : lookupA s0.tasks id0 with
        | none => exact h0
        | some t0 =>
          simp only [hlk]
          by_cases hg : t0.status = "running" ∨ t0.status = "queued"
          · rw [if_pos hg]
            intro p hp
            rw [pushLog_tasks] at hp
            exact BInv_set _ _ _ h0
              (baseOK_stopFlag (h0 _ (lookupA_mem _ _ _ hlk))) p hp
          · rw [if_neg hg]
            exact h0
    intro p hp
    exact hfold (keysOf s.tasks) s h p hp
  | deliverReturn id outcome =>
    show BInv (match lookupA s.runners id with
      | some (PC.delivering k) => deliverReturnStep s id k outcome
      | _ => s)
    cases hr : lookupA s.runners id with
    | none => simp only [hr]; exact h
    | some pc =>
      cases pc with
      | ready k => simp only [hr]; exact h
      | delivering k =>
        simp only [hr]
        rw [deliverReturnStep]
        cases hlk : lookupA s.tasks id with
        | none => simp only [hlk]; exact h
        | some t0 =>
          simp only [hlk]
          have hb0 : baseOK (opComplete t0 outcome) :=
            baseOK_opComplete (h _ (lookupA_mem _ _ _ hlk)) outcome
          have hmid : BInv (pushLog
              { s with tasks := setA s.tasks id (opComplete t0 outcome) }
              id (if outcome then "success: Message sent"
                else "error: Message failed")) := by
            intro p hp
            rw [pushLog_tasks] at hp
            exact BInv_set _ _ _ h hb0 p hp
          by_cases hstop : (opComplete t0 outcome).isStopped
          · rw [if_pos hstop]
            exact BInv_finishRunner _ _ _ hmid hb0
          · rw [if_neg hstop]
            by_cases hk : k + 1 < numOps (opComplete t0 outcome)
            · rw [if_pos hk]
              by_cases hlt : (opComplete t0 outcome).completed <
                  (opComplete t0 outcome).total
              · rw [if_pos hlt]
                intro p hp
                exact hmid p hp
              · rw [if_neg hlt]
                intro p hp
                exact hmid p hp
            · rw [if_neg hk]
              exact BInv_finishRunner _ _ _ hmid hb0
  | wake id =>
    show BInv (match lookupA s.runners id with
      | some (PC.ready k) => wakeStep s id k
      | _ => s)
    cases hr : lookupA s.runners id with
    | none => simp only [hr]; exact h
    | some pc =>
      cases pc with
      | delivering k => simp only [hr]; exact h
      | ready k =>
        simp only [hr]
        rw [wakeStep]
        cases hlk : lookupA s.tasks id with
        | none => simp only [hlk]; exact h
        | some t0 =>
          simp only [hlk]
          by_cases hstop : t0.isStopped
          · rw [if_pos hstop]
            exact BInv_finishRunner _ _ _ h (h _ (lookupA_mem _ _ _ hlk))
          · rw [if_neg hstop]
            intro p hp
            exact h p hp
  | structuralError id =>
    show BInv (structuralErrorStep s id)
    rw [structuralErrorStep]
    cases hr : lookupA s.runners id with
    | none =>
      cases hlk : lookupA s.tasks id <;> simp only [hlk] <;> exact h
    | some pc =>
      simp only
      cases hlk : lookupA s.tasks id with
      | none => simp only [hlk]; exact h
      | some t0 =>
        simp only [hlk]
        rw [processTaskQueue]
        refine BInv_ptqAux _ _ ?_
        intro p hp
        rw [pushLog_tasks] at hp
        exact BInv_set _ _ _ h
          (baseOK_setStatus (h _ (lookupA_mem _ _ _ hlk)) _ (by simp)) p hp

theorem BInv_runEvents (evts : List Event) : BInv (runEvents evts) := by
  rw [runEvents]
  have : ∀ (l : List Event) (s : State), BInv s →
      BInv (l.foldl applyEvent s) := by
    intro l
    induction l with
    | nil => intro s h; exact h
    | cons e rest ih =>
      intro s h
      exact ih _ (BInv_applyEvent s e h)
  refine this evts initState ?_
  intro p hp
  simp [initState] at hp

theorem evol_fold (ext : List Event) :
    ∀ (s : State) (id : String) (t : Task),
      noSubmitOfB id ext = true → lookupA s.tasks id = some t →
      ∃ t', lookupA (ext.foldl applyEvent s).tasks id = some t' ∧
        taskEvol t t' := by
  induction ext with
  | nil => intro s id t _ ht; exact ⟨t, ht, taskEvol_refl t⟩
  | cons e rest ih =>
    intro s id t hns ht
    rw [noSubmitOfB] at hns
    simp only [List.all_cons, Bool.and_eq_true] at hns
    obtain ⟨t1, ht1, hev1⟩ := applyEvent_evol s e id t
      (by simpa using hns.1) ht
    obtain ⟨t', ht', hev2⟩ := ih (applyEvent s e) id t1
      (by rw [noSubmitOfB]; exact hns.2) ht1
    exact ⟨t', ht', taskEvol_trans hev1 hev2⟩

/-! # Claim C6 (amended): status values -/

/-- C6 (amended): at every reachable state, every task's status is one of
exactly the five values `queued`, `running`, `completed`, `stopped`,
`error`; an uncaught structural error in the execution loop sets the
status to `error` (the claimed fifth value `failed` is never assigned —
see the counterexample). -/
theorem c6_status_values (evts : List Event) (id : String) :
    statusOKB (runEvents evts) id = true := by
  rw [statusOKB]
  cases hlk : lookupA (runEvents evts).tasks id with
  | none => rfl
  | some t =>
    simp only
    exact decide_eq_true
      (BInv_runEvents evts _ (lookupA_mem _ _ _ hlk)).1

/-! # Claim C1 (amended): totalOperations -/

/-- C1 (amended): for every reachable state and every task, the stored
`totalOperations` equals `batchCount * |messages| * |conversations|` — the
cartesian product does not include a `|credentialSets|` factor (see the
counterexample) — and the value is fixed at submission: it is unchanged by
every later event, as long as no later submission re-draws the same task
id (a collision overwrites the whole entry). -/
theorem c1_total_formula_and_fixed (evts ext : List Event) (id : String)
    (hns : noSubmitOfB id ext = true) :
    totalEqB (runEvents evts) id = true ∧
      totalPreservedB (runEvents evts) (runEvents (evts ++ ext)) id
        = true := by
  constructor
  · rw [totalEqB]
    cases hlk : lookupA (runEvents evts).tasks id with
    | none => rfl
    | some t =>
      simp only
      exact beq_iff_eq.mpr
        (BInv_runEvents evts _ (lookupA_mem _ _ _ hlk)).2
  · rw [totalPreservedB]
    cases hlk : lookupA (runEvents evts).tasks id with
    | none => simp
    | some t =>
      have hrun : runEvents (evts ++ ext) =
          ext.foldl applyEvent (runEvents evts) := by
        rw [runEvents, runEvents, List.foldl_append]
      obtain ⟨t', ht', hev⟩ := evol_fold ext (runEvents evts) id t hns hlk
      rw [hrun, ht']
      simp only
      exact beq_iff_eq.mpr hev.1

/-- Witness for C1: the stored total of an accepted submission survives a
later stop request. -/
theorem c1_witness :
    noSubmitOfB "h4rsh_1000" [Event.stopTask "h4rsh_1000"] = true ∧
      (totalEqB (runEvents [smallSubmit 0 "u"]) "h4rsh_1000" = true ∧
        totalPreservedB (runEvents [smallSubmit 0 "u"])
          (runEvents ([smallSubmit 0 "u"] ++ [Event.stopTask "h4rsh_1000"]))
          "h4rsh_1000" = true) :=
  ⟨by decide,
    c1_total_formula_and_fixed [smallSubmit 0 "u"]
      [Event.stopTask "h4rsh_1000"] "h4rsh_1000" (by decide)⟩

/-! # Claim C7: stopping a queued task -/

theorem frozen_ptqAux (id : String) (fuel : Nat) :
    ∀ s : State, frozenP s id → frozenP (ptqAux fuel s) id := by
  induction fuel with
  | zero => intro s h; exact h
  | succ fuel ih =>
    intro s h
    rw [ptqAux]
    by_cases hact : s.activeTasks < MAX_CONCURRENT_TASKS
    · rw [if_pos hact]
      cases hq : s.queue with
      | nil => exact h
      | cons id0 rest =>
        have h' : frozenP ({ s with queue := rest } : State) id := h
        cases hlk : lookupA ({ s with queue := rest } : State).tasks id0 with
        | none => simp only [hlk]; exact ih _ h'
        | some t0 =>
          simp only [hlk]
          by_cases hg : t0.status = "queued" && !t0.isStopped
          · rw [if_pos hg]
            by_cases hid0 : id0 = id
            · subst hid0
              obtain ⟨⟨t, ht, _, hst⟩, _, _⟩ := h'
              rw [ht] at hlk
              obtain rfl : t0 = t := (Option.some.injEq _ _).mp hlk.symm
              rw [Bool.and_eq_true, decide_eq_true_iff] at hg
              exact absurd hg.1 (by rw [hst]; decide)
            · refine ih _ ?_
              obtain ⟨⟨t, ht, hflag, hst⟩, hrun, hdel⟩ := h'
              refine ⟨⟨t, ?_, hflag, hst⟩, ?_, ?_⟩
              · rw [spawn_lookup_ne _ _ _ _ (fun hh => hid0 hh.symm)]
                exact ht
              · rw [spawn_runners]
                by_cases h0 : numOps { t0 with status := "running" } = 0
                · rw [if_pos h0]; exact hrun
                · rw [if_neg h0]
                  show lookupA ((id0, PC.delivering 0) ::
                    ({ s with queue := rest } : State).runners) id = none
                  rw [lookupA]
                  rw [if_neg hid0]
                  exact hrun
              · rw [deliveriesFor, spawn_deliveries]
                by_cases h0 : numOps { t0 with status := "running" } = 0
                · rw [if_pos h0]; exact hdel
                · rw [if_neg h0, List.filter_append]
                  rw [deliveriesFor] at hdel
                  rw [hdel]
                  simp [hid0]
          · rw [if_neg hg]
            exact ih _ h'
    · rw [if_neg hact]
      exact h

theorem frozen_finishRunner (s : State) (id id' : String) (t : Task)
    (hne : id ≠ id') (h : frozenP s id) :
    frozenP (finishRunner s id' t) id := by
  obtain ⟨⟨t0, ht, hflag, hst⟩, hrun, hdel⟩ := h
  rw [finishRunner, processTaskQueue]
  refine frozen_ptqAux id _ _ ⟨⟨t0, ?_, hflag, hst⟩, ?_, ?_⟩
  · rw [pushLog_tasks, lookupA_setA_ne _ _ _ _ hne]
    exact ht
  · rw [pushLog_runners]
    exact lookupA_eraseKey_none _ _ _ hrun
  · rw [deliveriesFor, pushLog_deliveries]
    exact hdel

theorem frozen_applyEvent (s : State) (e : Event) (id : String)
    (he : submitIdOf e ≠ some id) (h : frozenP s id) :
    frozenP (applyEvent s e) id := by
  obtain ⟨⟨t0, ht, hflag, hst⟩, hrun, hdel⟩ := h
  cases e with
  | submit r u c m cv bc bd td =>
    have hne : id ≠ generateTaskId r := by
      intro hh
      exact he (by simp [submitIdOf, hh])
    show frozenP (submitStep s r u c m cv bc bd td) id
    rw [submitStep]
    by_cases h1 : jsTrim c.data = []
    · rw [if_pos h1]; exact ⟨⟨t0, ht, hflag, hst⟩, hrun, hdel⟩
    · rw [if_neg h1]
      by_cases h2 : jsTrim m.data = []
      · rw [if_pos h2]; exact ⟨⟨t0, ht, hflag, hst⟩, hrun, hdel⟩
      · rw [if_neg h2]
        by_cases h3 : jsTrim cv.data = []
        · rw [if_pos h3]; exact ⟨⟨t0, ht, hflag, hst⟩, hrun, hdel⟩
        · rw [if_neg h3]
          by_cases h4 : MAX_TASKS_PER_USER ≤
              (s.tasks.filter
                (fun p => p.2.user_id = u && p.2.status = "running")).length
          · rw [if_pos h4]; exact ⟨⟨t0, ht, hflag, hst⟩, hrun, hdel⟩
          · rw [if_neg h4]
            by_cases h5 : (parseCookies c).length = 0
            · rw [if_pos h5]; exact ⟨⟨t0, ht, hflag, hst⟩, hrun, hdel⟩
            · rw [if_neg h5]
              by_cases h6 : (listField m).length = 0
              · rw [if_pos h6]; exact ⟨⟨t0, ht, hflag, hst⟩, hrun, hdel⟩
              · rw [if_neg h6]
                by_cases h7 : (listField cv).length = 0
                · rw [if_pos h7]; exact ⟨⟨t0, ht, hflag, hst⟩, hrun, hdel⟩
                · rw [if_neg h7]
                  rw [processTaskQueue]
                  refine frozen_ptqAux id _ _ ⟨⟨t0, ?_, hflag, hst⟩, ?_, ?_⟩
                  · rw [pushLog_tasks, lookupA_setA_ne _ _ _ _ hne]
                    exact ht
                  · rw [pushLog_runners]
                    exact hrun
                  · rw [deliveriesFor, pushLog_deliveries]
                    exact hdel
  | stopTask id' =>
    show frozenP (stopTaskStep s id') id
    by_cases hid : id' = id
    · subst hid
      simp only [stopTaskStep, ht]
      refine ⟨⟨{ t0 with isStopped := true, status := "stopped" }, ?_,
        rfl, rfl⟩, ?_, ?_⟩
      · rw [pushLog_tasks]
        exact lookupA_setA_self _ _ _
      · rw [pushLog_runners]
        exact hrun
      · rw [deliveriesFor, pushLog_deliveries]
        exact hdel
    · cases hlk : lookupA s.tasks id' with
      | none =>
        simp only [stopTaskStep, hlk]
        exact ⟨⟨t0, ht, hflag, hst⟩, hrun, hdel⟩
      | some t1 =>
        simp only [stopTaskStep, hlk]
        refine ⟨⟨t0, ?_, hflag, hst⟩, ?_, ?_⟩
        · rw [pushLog_tasks, lookupA_setA_ne _ _ _ _ (fun hh => hid hh.symm)]
          exact ht
        · rw [pushLog_runners]
          exact hrun
        · rw [deliveriesFor, pushLog_deliveries]
          exact hdel
  | stopAll =>
    show frozenP (stopAllStep s) id
    rw [stopAllStep]
    have hfold : ∀ (ids : List String) (s0 : State), frozenP s0 id →
        frozenP (ids.foldl stopAllVisit s0) id := by
      intro ids
      induction ids with
      | nil => intro s0 h0; exact h0
      | cons id0 rest ih =>
        intro s0 h0
        refine ih _ ?_
        obtain ⟨⟨t1, ht1, hflag1, hst1⟩, hrun1, hdel1⟩ := h0
        rw [stopAllVisit]
        by_cases hid0 : id0 = id
        · subst hid0
          rw [ht1]
          simp only
          rw [if_neg (by rw [hst1]; decide)]
          exact ⟨⟨t1, ht1, hflag1, hst1⟩, hrun1, hdel1⟩
        · cases hlk : lookupA s0.tasks id0 with
          | none => exact ⟨⟨t1, ht1, hflag1, hst1⟩, hrun1, hdel1⟩
          | some t2 =>
            simp only [hlk]
            by_cases hg : t2.status = "running" ∨ t2.status = "queued"
            · rw [if_pos hg]
              refine ⟨⟨t1, ?_, hflag1, hst1⟩, ?_, ?_⟩
              · rw [pushLog_tasks,
                  lookupA_setA_ne _ _ _ _ (fun hh => hid0 hh.symm)]
                exact ht1
              · rw [pushLog_runners]
                exact hrun1
              · rw [deliveriesFor, pushLog_deliveries]
                exact hdel1
            · rw [if_neg hg]
              exact ⟨⟨t1, ht1, hflag1, hst1⟩, hrun1, hdel1⟩
    have h0 := hfold (keysOf s.tasks) s ⟨⟨t0, ht, hflag, hst⟩, hrun, hdel⟩
    obtain ⟨⟨t1, ht1, hflag1, hst1⟩, hrun1, hdel1⟩ := h0
    exact ⟨⟨t1, ht1, hflag1, hst1⟩, hrun1, hdel1⟩
  | deliverReturn id' outcome =>
    show frozenP (match lookupA s.runners id' with
      | some (PC.delivering k) => deliverReturnStep s id' k outcome
      | _ => s) id
    cases hr : lookupA s.runners id' with
    | none =>
      simp only [hr]
      exact ⟨⟨t0, ht, hflag, hst⟩, hrun, hdel⟩
    | some pc =>
      cases pc with
      | ready k =>
        simp only [hr]
        exact ⟨⟨t0, ht, hflag, hst⟩, hrun, hdel⟩
      | delivering k =>
        simp only [hr]
        have hid : id' ≠ id := by
          intro hh
          rw [hh, hrun] at hr
          exact Option.noConfusion hr
        rw [deliverReturnStep]
        cases hlk : lookupA s.tasks id' with
        | none =>
          simp only [hlk]
          exact ⟨⟨t0, ht, hflag, hst⟩, hrun, hdel⟩
        | some t1 =>
          simp only [hlk]
          have hne : id ≠ id' := fun hh => hid hh.symm
          have hmid : frozenP (pushLog
              { s with tasks := setA s.tasks id' (opComplete t1 outcome) }
              id' (if outcome then "success: Message sent"
                else "error: Message failed")) id := by
            refine ⟨⟨t0, ?_, hflag, hst⟩, ?_, ?_⟩
            · rw [pushLog_tasks, lookupA_setA_ne _ _ _ _ hne]
              exact ht
            · rw [pushLog_runners]
              exact hrun
            · rw [deliveriesFor, pushLog_deliveries]
              exact hdel
          by_cases hstop : (opComplete t1 outcome).isStopped
          · rw [if_pos hstop]
            exact frozen_finishRunner _ _ _ _ hne hmid
          · rw [if_neg hstop]
            by_cases hk : k + 1 < numOps (opComplete t1 outcome)
            · rw [if_pos hk]
              obtain ⟨he1, he2, he3⟩ := hmid
              by_cases hlt : (opComplete t1 outcome).completed <
                  (opComplete t1 outcome).total
              · rw [if_pos hlt]
                refine ⟨he1, ?_, he3⟩
                show lookupA (setA _ id' (PC.ready (k + 1))) id = none
                rw [lookupA_setA_ne _ _ _ _ hne]
                exact he2
              · rw [if_neg hlt]
                refine ⟨he1, ?_, ?_⟩
                · show lookupA (setA _ id' (PC.delivering (k + 1))) id = none
                  rw [lookupA_setA_ne _ _ _ _ hne]
                  exact he2
                · show List.filter _ (_ ++ [(id', k + 1)]) = []
                  rw [List.filter_append]
                  rw [deliveriesFor] at he3
                  rw [he3]
                  simp [hid]
            · rw [if_neg hk]
              exact frozen_finishRunner _ _ _ _ hne hmid
  | wake id' =>
    show frozenP (match lookupA s.runners id' with
      | some (PC.ready k) => wakeStep s id' k
      | _ => s) id
    cases hr : lookupA s.runners id' with
    | none =>
      simp only [hr]
      exact ⟨⟨t0, ht, hflag, hst⟩, hrun, hdel⟩
    | some pc =>
      cases pc with
      | delivering k =>
        simp only [hr]
        exact ⟨⟨t0, ht, hflag, hst⟩, hrun, hdel⟩
      | ready k =>
        simp only [hr]
        have hid : id' ≠ id := by
          intro hh
          rw [hh, hrun] at hr
          exact Option.noConfusion hr
        have hne : id ≠ id' := fun hh => hid hh.symm
        rw [wakeStep]
        cases hlk : lookupA s.tasks id' with
        | none =>
          simp only [hlk]
          exact ⟨⟨t0, ht, hflag, hst⟩, hrun, hdel⟩
        | some t1 =>
          simp only [hlk]
          by_cases hstop : t1.isStopped
          · rw [if_pos hstop]
            exact frozen_finishRunner _ _ _ _ hne
              ⟨⟨t0, ht, hflag, hst⟩, hrun, hdel⟩
          · rw [if_neg hstop]
            refine ⟨⟨t0, ht, hflag, hst⟩, ?_, ?_⟩
            · show lookupA (setA _ id' (PC.delivering k)) id = none
              rw [lookupA_setA_ne _ _ _ _ hne]
              exact hrun
            · show List.filter _ (_ ++ [(id', k)]) = []
              rw [List.filter_append]
              rw [deliveriesFor] at hdel
              rw [hdel]
              simp [hid]
  | structuralError id' =>
    show frozenP (structuralErrorStep s id') id
    rw [structuralErrorStep]
    cases hr : lookupA s.runners id' with
    | none =>
      cases hlk : lookupA s.tasks id' <;> simp only [hlk] <;>
        exact ⟨⟨t0, ht, hflag, hst⟩, hrun, hdel⟩
    | some pc =>
      simp only
      have hid : id' ≠ id := by
        intro hh
        rw [hh, hrun] at hr
        exact Option.noConfusion hr
      have hne : id ≠ id' := fun hh => hid hh.symm
      cases hlk : lookupA s.tasks id' with
      | none =>
        simp only [hlk]
        exact ⟨⟨t0, ht, hflag, hst⟩, hrun, hdel⟩
      | some t1 =>
        simp only [hlk]
        rw [processTaskQueue]
        refine frozen_ptqAux id _ _ ⟨⟨t0, ?_, hflag, hst⟩, ?_, ?_⟩
        · rw [pushLog_tasks, lookupA_setA_ne _ _ _ _ hne]
          exact ht
        · rw [pushLog_runners]
          exact lookupA_eraseKey_none _ _ _ hrun
        · rw [deliveriesFor, pushLog_deliveries]
          exact hdel

theorem frozen_fold (id : String) :
    ∀ (mid : List Event) (s : State), noSubmitOfB id mid = true →
      frozenP s id → frozenP (mid.foldl applyEvent s) id := by
  intro mid
  induction mid with
  | nil => intro s _ h; exact h
  | cons e rest ih =>
    intro s hns h
    rw [noSubmitOfB] at hns
    simp only [List.all_cons, Bool.and_eq_true] at hns
    refine ih _ (by rw [noSubmitOfB]; exact hns.2) ?_
    exact frozen_applyEvent s e id (by simpa using hns.1) h

/-- C7: if `stop` is called on a task while its status is `queued` (and
its execution loop has not been started — no suspension, no recorded
delivery), the task transitions directly to `stopped`; after any
continuation of the execution that contains no colliding re-submission of
the same id, its status is still `stopped` — in particular it never
enters `running`, since the continuation `mid` is arbitrary and covers
every observation point — and `deliver` was never invoked for any of its
operations. -/
theorem c7_stop_queued_never_runs (s : State) (id : String)
    (mid : List Event)
    (h1 : taskStatusOf s id = some "queued")
    (h2 : lookupA s.runners id = none)
    (h3 : deliveriesFor s id = [])
    (h4 : noSubmitOfB id mid = true) :
    taskStatusOf (mid.foldl applyEvent (applyEvent s (.stopTask id))) id
        = some "stopped" ∧
      deliveriesFor (mid.foldl applyEvent (applyEvent s (.stopTask id))) id
        = [] := by
  rw [taskStatusOf] at h1
  cases hlk : lookupA s.tasks id with
  | none => rw [hlk] at h1; exact Option.noConfusion h1
  | some t =>
    have hstart : frozenP (applyEvent s (.stopTask id)) id := by
      show frozenP (stopTaskStep s id) id
      simp only [stopTaskStep, hlk]
      refine ⟨⟨{ t with isStopped := true, status := "stopped" }, ?_,
        rfl, rfl⟩, ?_, ?_⟩
      · rw [pushLog_tasks]
        exact lookupA_setA_self _ _ _
      · rw [pushLog_runners]
        exact h2
      · rw [deliveriesFor, pushLog_deliveries]
        exact h3
    obtain ⟨⟨t', ht', _, hst'⟩, _, hdel'⟩ :=
      frozen_fold id mid (applyEvent s (.stopTask id)) h4 hstart
    constructor
    · rw [taskStatusOf, ht']
      simp [hst']
    · exact hdel'

/-- Witness for C7: stop a queued task, then run a wake, a delivery return
and a stop-all; the task stays `stopped` and no delivery is recorded. -/
theorem c7_witness :
    taskStatusOf queuedState "t1" = some "queued" ∧
      lookupA queuedState.runners "t1" = none ∧
      deliveriesFor queuedState "t1" = [] ∧
      noSubmitOfB "t1"
        [Event.wake "t1", Event.deliverReturn "t1" true, Event.stopAll]
        = true ∧
      (taskStatusOf
          ([Event.wake "t1", Event.deliverReturn "t1" true,
            Event.stopAll].foldl applyEvent
              (applyEvent queuedState (.stopTask "t1"))) "t1"
          = some "stopped" ∧
        deliveriesFor
          ([Event.wake "t1", Event.deliverReturn "t1" true,
            Event.stopAll].foldl applyEvent
              (applyEvent queuedState (.stopTask "t1"))) "t1" = []) :=
  ⟨by decide, by decide, by decide, by decide,
    c7_stop_queued_never_runs queuedState "t1"
      [Event.wake "t1", Event.deliverReturn "t1" true, Event.stopAll]
      (by decide) (by decide) (by decide) (by decide)⟩

/-! # Claim C5: a task whose deliveries all fail still completes -/

theorem numOps_opComplete (t : Task) (b : Bool) :
    numOps (opComplete t b) = numOps t := by
  cases b <;> simp [opComplete, numOps]

theorem opComplete_false_fields (t : Task) :
    (opComplete t false).completed = t.completed + 1 ∧
      (opComplete t false).success = t.success ∧
      (opComplete t false).failed = t.failed + 1 ∧
      (opComplete t false).isStopped = t.isStopped ∧
      (opComplete t false).total = t.total := by
  simp [opComplete]

theorem driveFalse_run (m : Nat) :
    ∀ (s : State) (id : String) (t : Task) (k n : Nat),
      lookupA s.tasks id = some t →
      lookupA s.runners id = some (PC.delivering k) →
      t.completed = k → t.success = 0 → t.failed = k →
      t.isStopped = false → t.total = n → numOps t = n →
      k + m = n → 1 ≤ m →
      ∃ t', lookupA ((driveFalse id m).foldl applyEvent s).tasks id
          = some t' ∧
        t'.status = "completed" ∧ t'.completed = n ∧ t'.success = 0 ∧
        t'.failed = n := by
  induction m with
  | zero => intro s id t k n _ _ _ _ _ _ _ _ _ hm; omega
  | succ m ih =>
    intro s id t k n ht hr hc hs hf hstop htot hn hkm _
    have hfields := opComplete_false_fields t
    have hnors : numOps (opComplete t false) = n := by
      rw [numOps_opComplete, hn]
    have happ : applyEvent s (.deliverReturn id false) =
        deliverReturnStep s id k false := by
      simp only [applyEvent, hr]
    cases m with
    | zero =>
      -- last operation: the loops are exhausted and the task finalizes
      show ∃ t', lookupA (([.deliverReturn id false] :
          List Event).foldl applyEvent s).tasks id = some t' ∧ _
      rw [List.foldl_cons, List.foldl_nil, happ, deliverReturnStep]
      simp only [ht]
      rw [if_neg (by rw [hfields.2.2.2.1, hstop]; exact Bool.false_ne_true)]
      rw [if_neg (by rw [hnors]; omega)]
      refine ⟨finalizeStatus (opComplete t false),
        finishRunner_lookup_self _ _ _, ?_, ?_, ?_, ?_⟩
      · rw [finalizeStatus]
        rw [hfields.2.2.2.1, hstop]
        rfl
      · show (opComplete t false).completed = n
        omega
      · show (opComplete t false).success = 0
        rw [hfields.2.1, hs]
      · show (opComplete t false).failed = n
        omega
    | succ m' =>
      -- not the last operation: sleep, wake, and continue
      show ∃ t', lookupA ((Event.deliverReturn id false :: Event.wake id ::
          driveFalse id (m' + 1)).foldl applyEvent s).tasks id = some t' ∧ _
      rw [List.foldl_cons, List.foldl_cons, happ, deliverReturnStep]
      simp only [ht]
      rw [if_neg (by rw [hfields.2.2.2.1, hstop]; exact Bool.false_ne_true)]
      rw [if_pos (by rw [hnors]; omega)]
      rw [if_pos (by rw [hfields.1, hfields.2.2.2.2, hc, htot]; omega)]
      set s1 : State := pushLog
        ({ s with tasks := setA s.tasks id (opComplete t false) } : State) id
        (if false then "success: Message sent" else "error: Message failed")
        with hs1
      set s2 : State := { s1 with runners := setA s1.runners id (PC.ready (k + 1)) } with hs2
      have ht1 : lookupA s2.tasks id = some (opComplete t false) := by
        rw [hs2]
        show lookupA s1.tasks id = some (opComplete t false)
        rw [hs1, pushLog_tasks]
        exact lookupA_setA_self _ _ _
      have hr1 : lookupA s2.runners id = some (PC.ready (k + 1)) := by
        rw [hs2]
        show lookupA (setA s1.runners id (PC.ready (k + 1))) id = _
        exact lookupA_setA_self _ _ _
      have happ2 : applyEvent s2 (.wake id) = wakeStep s2 id (k + 1) := by
        simp only [applyEvent, hr1]
      rw [happ2, wakeStep]
      simp only [ht1]
      rw [if_neg (by rw [hfields.2.2.2.1, hstop]; exact Bool.false_ne_true)]
      refine ih _ id (opComplete t false) (k + 1) n ?_ ?_ ?_ ?_ ?_ ?_ ?_ ?_
        ?_ ?_
      · exact ht1
      · show lookupA (setA (setA s1.runners id (PC.ready (k + 1))) id
          (PC.delivering (k + 1))) id = some (PC.delivering (k + 1))
        exact lookupA_setA_self _ _ _
      · omega
      · rw [hfields.2.1, hs]
      · omega
      · rw [hfields.2.2.2.1, hstop]
      · rw [hfields.2.2.2.2, htot]
      · exact hnors
      · omega
      · omega

/-- C5: a freshly promoted running task of `n ≥ 1` operations whose
deliveries all return `false` (which is also how every exception thrown
inside `sendFacebookMessage` surfaces, src/server.js:702-714), and which
is never stopped, reaches the terminal status `completed` — not an error
state — with `succeededOperations = 0` and
`failedOperations = totalOperations`; no delivery failure aborts the
execution loop. -/
theorem c5_all_failures_completed (s : State) (id : String) (n : Nat)
    (h : freshRunningB s id n = true) :
    taskStatusOf ((driveFalse id n).foldl applyEvent s) id
        = some "completed" ∧
      countersOf ((driveFalse id n).foldl applyEvent s) id
        = some (n, 0, n) := by
  rw [freshRunningB] at h
  cases hlk : lookupA s.tasks id with
  | none => rw [hlk] at h; simp at h
  | some t =>
    rw [hlk] at h
    cases hr : lookupA s.runners id with
    | none => rw [hr] at h; simp at h
    | some pc =>
      rw [hr] at h
      cases pc with
      | ready k => simp at h
      | delivering k =>
        cases k with
        | succ k' => simp at h
        | zero =>
          simp only [Bool.and_eq_true, beq_iff_eq, Bool.not_eq_eq_eq_not,
            Bool.not_true, decide_eq_true_eq] at h
          obtain ⟨⟨⟨⟨⟨⟨hc, hs⟩, hf⟩, hstop⟩, htot⟩, hn⟩, hge⟩ := h
          obtain ⟨t', ht', hst', hc', hs', hf'⟩ :=
            driveFalse_run n s id t 0 n hlk hr hc hs hf
              (by simpa using hstop) htot hn (by omega) hge
          constructor
          · rw [taskStatusOf, ht']
            simp [hst']
          · rw [countersOf, ht']
            simp [hc', hs', hf']

/-- Witness for C5 at a one-operation running task. -/
theorem c5_witness :
    freshRunningB runningState "t1" 1 = true ∧
      (taskStatusOf ((driveFalse "t1" 1).foldl applyEvent runningState) "t1"
          = some "completed" ∧
        countersOf ((driveFalse "t1" 1).foldl applyEvent runningState) "t1"
          = some (1, 0, 1)) :=
  ⟨by decide, c5_all_failures_completed runningState "t1" 1 (by decide)⟩

/-! # Claim C4: counter consistency -/

theorem countersOK_numOps_pos {t : Task} (h : countersOK t) :
    1 ≤ numOps t := by
  obtain ⟨-, -, -, h4, h5, h6, -⟩ := h
  have hm : 0 < t.messages.length := List.length_pos.mpr h5
  have hc : 0 < t.conversations.length := List.length_pos.mpr h6
  have := Nat.mul_pos (Nat.mul_pos h4 hm) hc
  exact this

theorem countersOK_setStatus {t : Task} (h : countersOK t) (st : String)
    (hst : st ≠ "queued") : countersOK { t with status := st } := by
  obtain ⟨h1, h2, h3, h4, h5, h6, _⟩ := h
  exact ⟨h1, h2, h3, h4, h5, h6, fun hc => absurd hc hst⟩

theorem countersOK_finalize {t : Task} (h : countersOK t) :
    countersOK (finalizeStatus t) := by
  rw [finalizeStatus]
  by_cases hs : t.isStopped
  · rw [if_pos hs]
    exact countersOK_setStatus h _ (by decide)
  · rw [if_neg hs]
    exact countersOK_setStatus h _ (by decide)

theorem countersOK_stopFlag {t : Task} (h : countersOK t) :
    countersOK { t with isStopped := true, status := "stopped" } := by
  obtain ⟨h1, h2, h3, h4, h5, h6, _⟩ := h
  exact ⟨h1, h2, h3, h4, h5, h6,
    fun hc => absurd hc (by decide : ("stopped" : String) ≠ "queued")⟩

theorem countersOK_opComplete {t : Task} (h : countersOK t) (outcome : Bool)
    (hlt : t.completed < t.total) (hsq : t.status ≠ "queued") :
    countersOK (opComplete t outcome) := by
  obtain ⟨h1, h2, h3, h4, h5, h6, _⟩ := h
  cases outcome <;>
    exact ⟨by simp [opComplete]; omega, by simp [opComplete]; omega,
      by simpa [opComplete, numOps] using h3, h4, h5, h6,
      fun hc => absurd (by simpa [opComplete] using hc) hsq⟩

theorem runnerOK_congr {s s' : State} (h : s'.tasks = s.tasks)
    (r : String × PC) (hr : runnerOK s r) : runnerOK s' r := by
  rw [runnerOK, h]
  exact hr

theorem no_runner_of_queued {s : State} (h : CInv s) {id : String}
    {t : Task} (ht : lookupA s.tasks id = some t)
    (hq : t.status = "queued") : id ∉ keysOf s.runners := by
  intro hmem
  obtain ⟨pc, hpc⟩ := exists_of_mem_keysOf _ _ hmem
  obtain ⟨tr, htr, -, -, hsq⟩ := h.2.1 (id, pc) hpc
  rw [ht] at htr
  obtain rfl : tr = t := (Option.some.injEq _ _).mp htr.symm
  exact hsq hq

theorem CInv_spawn (s : State) (id : String) (t : Task) (h : CInv s)
    (ht : lookupA s.tasks id = some t) (hq : t.status = "queued") :
    CInv (spawn s id t) := by
  have hcOK : countersOK t := h.1 _ (lookupA_mem _ _ _ ht)
  have hpos : 1 ≤ numOps t := countersOK_numOps_pos hcOK
  have h0 : ¬ numOps { t with status := "running" } = 0 := by
    show ¬ numOps t = 0
    omega
  have hzero := hcOK.2.2.2.2.2.2 hq
  have hnotr : id ∉ keysOf s.runners := no_runner_of_queued h ht hq
  have htasks1 : (spawn s id t).tasks =
      setA s.tasks id { t with status := "running" } := by
    rw [spawn_tasks, if_neg h0]
  have hrunners1 : (spawn s id t).runners =
      (id, PC.delivering 0) :: s.runners := by
    rw [spawn_runners, if_neg h0]
  refine ⟨?_, ?_, ?_⟩
  · intro p hp
    rw [htasks1] at hp
    rcases mem_setA _ _ _ _ hp with h' | h'
    · rw [h']
      exact countersOK_setStatus hcOK _ (by decide)
    · exact h.1 p h'
  · intro r hr
    rw [hrunners1] at hr
    rcases List.mem_cons.mp hr with h' | h'
    · rw [h']
      refine ⟨{ t with status := "running" }, ?_, ?_, ?_, ?_⟩
      · rw [htasks1]
        exact lookupA_setA_self _ _ _
      · show { t with status := "running" }.completed = 0
        simpa using hzero.1
      · show 0 < { t with status := "running" }.total
        have : t.total = numOps t := hcOK.2.2.1
        show 0 < t.total
        omega
      · show ("running" : String) ≠ "queued"
        decide
    · obtain ⟨tr, htr, hc1, hc2, hc3⟩ := h.2.1 r h'
      have hne : r.1 ≠ id := by
        intro hh
        exact hnotr (hh ▸ (List.mem_map_of_mem Prod.fst h'))
      refine ⟨tr, ?_, hc1, hc2, hc3⟩
      rw [htasks1, lookupA_setA_ne _ _ _ _ hne]
      exact htr
  · rw [hrunners1]
    show (id :: keysOf s.runners).Nodup
    exact List.nodup_cons.mpr ⟨hnotr, h.2.2⟩

theorem CInv_ptqAux (fuel : Nat) :
    ∀ s : State, CInv s → CInv (ptqAux fuel s) := by
  induction fuel with
  | zero => intro s h; exact h
  | succ fuel ih =>
    intro s h
    rw [ptqAux]
    by_cases hact : s.activeTasks < MAX_CONCURRENT_TASKS
    · rw [if_pos hact]
      cases hq : s.queue with
      | nil => exact h
      | cons id0 rest =>
        have h' : CInv ({ s with queue := rest } : State) := h
        cases hlk : lookupA ({ s with queue := rest } : State).tasks id0 with
        | none => simp only [hlk]; exact ih _ h'
        | some t0 =>
          simp only [hlk]
          by_cases hg : t0.status = "queued" && !t0.isStopped
          · rw [if_pos hg]
            rw [Bool.and_eq_true, decide_eq_true_iff] at hg
            exact ih _ (CInv_spawn _ _ _ h' hlk hg.1)
          · rw [if_neg hg]
            exact ih _ h'
    · rw [if_neg hact]
      exact h

theorem CInv_finishRunner (s : State) (id : String) (t : Task)
    (htasks : ∀ p ∈ s.tasks, countersOK p.2)
    (hct : countersOK t)
    (hrun : ∀ r ∈ s.runners, r.1 = id ∨ runnerOK s r)
    (hnd : (keysOf s.runners).Nodup) : CInv (finishRunner s id t) := by
  rw [finishRunner, processTaskQueue]
  refine CInv_ptqAux _ _ ⟨?_, ?_, ?_⟩
  · intro p hp
    rw [pushLog_tasks] at hp
    rcases mem_setA _ _ _ _ hp with h' | h'
    · rw [h']
      exact countersOK_finalize hct
    · exact htasks p h'
  · intro r hr
    rw [pushLog_runners] at hr
    obtain ⟨hmem, hne⟩ := mem_eraseKey_of_nodup _ _ _ hnd hr
    rcases hrun r hmem with h' | h'
    · exact absurd h' hne
    obtain ⟨tr, htr, hc1, hc2, hc3⟩ := h'
    refine ⟨tr, ?_, hc1, hc2, hc3⟩
    rw [pushLog_tasks, lookupA_setA_ne _ _ _ _ hne]
    exact htr
  · rw [pushLog_runners]
    exact (keysOf_eraseKey_sublist _ _).nodup hnd

theorem CInv_applyEvent (s : State) (e : Event) (h : CInv s)
    (hfresh : ∀ r u c m cv bc bd td,
      e = .submit r u c m cv bc bd td →
      lookupA s.tasks (generateTaskId r) = none) :
    CInv (applyEvent s e) := by
  cases e with
  | submit r u c m cv bc bd td =>
    have hfr : lookupA s.tasks (generateTaskId r) = none :=
      hfresh r u c m cv bc bd td rfl
    show CInv (submitStep s r u c m cv bc bd td)
    rw [submitStep]
    by_cases h1 : jsTrim c.data = []
    · rw [if_pos h1]; exact h
    · rw [if_neg h1]
      by_cases h2 : jsTrim m.data = []
      · rw [if_pos h2]; exact h
      · rw [if_neg h2]
        by_cases h3 : jsTrim cv.data = []
        · rw [if_pos h3]; exact h
        · rw [if_neg h3]
          by_cases h4 : MAX_TASKS_PER_USER ≤
              (s.tasks.filter
                (fun p => p.2.user_id = u && p.2.status = "running")).length
          · rw [if_pos h4]; exact h
          · rw [if_neg h4]
            by_cases h5 : (parseCookies c).length = 0
            · rw [if_pos h5]; exact h
            · rw [if_neg h5]
              by_cases h6 : (listField m).length = 0
              · rw [if_pos h6]; exact h
              · rw [if_neg h6]
                by_cases h7 : (listField cv).length = 0
                · rw [if_pos h7]; exact h
                · rw [if_neg h7]
                  rw [processTaskQueue]
                  refine CInv_ptqAux _ _ ⟨?_, ?_, ?_⟩
                  · intro p hp
                    rw [pushLog_tasks] at hp
                    rcases mem_setA _ _ _ _ hp with h' | h'
                    · rw [h']
                      refine ⟨by simp, by simp, by simp [numOps], ?_,
                        ?_, ?_, fun _ => ⟨rfl, rfl, rfl⟩⟩
                      · show 1 ≤ min (max 1 bc) 100
                        omega
                      · intro hh
                        exact h6 (List.length_eq_zero.mpr hh)
                      · intro hh
                        exact h7 (List.length_eq_zero.mpr hh)
                    · exact h.1 p h'
                  · intro rr hrr
                    rw [pushLog_runners] at hrr
                    obtain ⟨tr, htr, hc1, hc2, hc3⟩ := h.2.1 rr hrr
                    have hne : rr.1 ≠ generateTaskId r := by
                      intro hh
                      rw [hh, hfr] at htr
                      exact Option.noConfusion htr
                    refine ⟨tr, ?_, hc1, hc2, hc3⟩
                    rw [pushLog_tasks, lookupA_setA_ne _ _ _ _ hne]
                    exact htr
                  · rw [pushLog_runners]
                    exact h.2.2
  | stopTask id =>
    show CInv (stopTaskStep s id)
    cases hlk : lookupA s.tasks id with
    | none => simp only [stopTaskStep, hlk]; exact h
    | some t =>
      simp only [stopTaskStep, hlk]
      refine ⟨?_, ?_, ?_⟩
      · intro p hp
        rw [pushLog_tasks] at hp
        rcases mem_setA _ _ _ _ hp with h' | h'
        · rw [h']
          exact countersOK_stopFlag (h.1 _ (lookupA_mem _ _ _ hlk))
        · exact h.1 p h'
      · intro rr hrr
        rw [pushLog_runners] at hrr
        obtain ⟨tr, htr, hc1, hc2, hc3⟩ := h.2.1 rr hrr
        by_cases hne : rr.1 = id
        · subst hne
          rw [hlk] at htr
          obtain rfl : tr = t := (Option.some.injEq _ _).mp htr.symm
          refine ⟨{ tr with isStopped := true, status := "stopped" }, ?_,
            hc1, hc2, ?_⟩
          · rw [pushLog_tasks]
            exact lookupA_setA_self _ _ _
          · show ("stopped" : String) ≠ "queued"
            decide
        · refine ⟨tr, ?_, hc1, hc2, hc3⟩
          rw [pushLog_tasks, lookupA_setA_ne _ _ _ _ hne]
          exact htr
      · rw [pushLog_runners]
        exact h.2.2
  | stopAll =>
    show CInv (stopAllStep s)
    rw [stopAllStep]
    have hfold : ∀ (ids : List String) (s0 : State), CInv s0 →
        CInv (ids.foldl stopAllVisit s0) := by
      intro ids
      induction ids with
      | nil => intro s0 h0; exact h0
      | cons id0 rest ih =>
        intro s0 h0
        refine ih _ ?_
        rw [stopAllVisit]
        cases hlk : lookupA s0.tasks id0 with
        | none => exact h0
        | some t0 =>
          simp only [hlk]
          by_cases hg : t0.status = "running" ∨ t0.status = "queued"
          · rw [if_pos hg]
            refine ⟨?_, ?_, ?_⟩
            · intro p hp
              rw [pushLog_tasks] at hp
              rcases mem_setA _ _ _ _ hp with h' | h'
              · rw [h']
                exact countersOK_stopFlag (h0.1 _ (lookupA_mem _ _ _ hlk))
              · exact h0.1 p h'
            · intro rr hrr
              rw [pushLog_runners] at hrr
              obtain ⟨tr, htr, hc1, hc2, hc3⟩ := h0.2.1 rr hrr
              by_cases hne : rr.1 = id0
              · subst hne
                rw [hlk] at htr
                obtain rfl : tr = t0 := (Option.some.injEq _ _).mp htr.symm
                refine ⟨{ tr with isStopped := true, status := "stopped" },
                  ?_, hc1, hc2, ?_⟩
                · rw [pushLog_tasks]
                  exact lookupA_setA_self _ _ _
                · show ("stopped" : String) ≠ "queued"
                  decide
              · refine ⟨tr, ?_, hc1, hc2, hc3⟩
                rw [pushLog_tasks, lookupA_setA_ne _ _ _ _ hne]
                exact htr
            · rw [pushLog_runners]
              exact h0.2.2
          · rw [if_neg hg]
            exact h0
    exact hfold (keysOf s.tasks) s h
  | deliverReturn id outcome =>
    show CInv (match lookupA s.runners id with
      | some (PC.delivering k) => deliverReturnStep s id k outcome
      | _ => s)
    cases hr : lookupA s.runners id with
    | none => simp only [hr]; exact h
    | some pc =>
      cases pc with
      | ready k => simp only [hr]; exact h
      | delivering k =>
        simp only [hr]
        obtain ⟨tr, htr, hcomp, hlt, hsq⟩ :=
          h.2.1 (id, PC.delivering k) (lookupA_mem _ _ _ hr)
        rw [deliverReturnStep]
        simp only [htr]
        have hcOK : countersOK tr := h.1 _ (lookupA_mem _ _ _ htr)
        have hlt' : tr.completed < tr.total := by
          rw [hcomp]
          exact hlt
        have hcOK1 : countersOK (opComplete tr outcome) :=
          countersOK_opComplete hcOK outcome hlt' hsq
        have htasks1 : ∀ p ∈ (pushLog
            ({ s with tasks := setA s.tasks id (opComplete tr outcome) } :
              State) id (if outcome then "success: Message sent"
                else "error: Message failed")).tasks, countersOK p.2 := by
          intro p hp
          rw [pushLog_tasks] at hp
          rcases mem_setA _ _ _ _ hp with h' | h'
          · rw [h']
            exact hcOK1
          · exact h.1 p h'
        have hsq1 : (opComplete tr outcome).status ≠ "queued" := by
          cases outcome <;> simpa [opComplete] using hsq
        by_cases hstop : (opComplete tr outcome).isStopped
        · rw [if_pos hstop]
          refine CInv_finishRunner _ _ _ htasks1 hcOK1 ?_ ?_
          · intro rr hrr
            rw [pushLog_runners] at hrr
            by_cases hne : rr.1 = id
            · exact Or.inl hne
            refine Or.inr ?_
            obtain ⟨t2, ht2, hd1, hd2, hd3⟩ := h.2.1 rr hrr
            refine ⟨t2, ?_, hd1, hd2, hd3⟩
            rw [pushLog_tasks, lookupA_setA_ne _ _ _ _ hne]
            exact ht2
          · rw [pushLog_runners]
            exact h.2.2
        · rw [if_neg hstop]
          by_cases hk : k + 1 < numOps (opComplete tr outcome)
          · rw [if_pos hk]
            by_cases hlt2 : (opComplete tr outcome).completed <
                (opComplete tr outcome).total
            · rw [if_pos hlt2]
              refine ⟨htasks1, ?_, ?_⟩
              · intro rr hrr
                have hrr' : rr ∈ setA s.runners id (PC.ready (k + 1)) := hrr
                rcases mem_setA_of_nodup _ _ _ _ h.2.2 hrr' with h' | h'
                · rw [h']
                  refine ⟨opComplete tr outcome, ?_, ?_, ?_, hsq1⟩
                  · show lookupA (pushLog ({ s with tasks := setA s.tasks id (opComplete tr outcome) } : State) id (if outcome then "success: Message sent" else "error: Message failed")).tasks id = _
                    rw [pushLog_tasks]
                    exact lookupA_setA_self _ _ _
                  · show (opComplete tr outcome).completed = pcIdx (PC.ready (k + 1))
                    have : (opComplete tr outcome).completed =
                        tr.completed + 1 := by
                      cases outcome <;> simp [opComplete]
                    rw [this, hcomp]
                    rfl
                  · show pcIdx (PC.ready (k + 1)) <
                        (opComplete tr outcome).total
                    have hceq : (opComplete tr outcome).completed =
                        tr.completed + 1 := by
                      cases outcome <;> simp [opComplete]
                    show k + 1 < (opComplete tr outcome).total
                    rw [hceq, hcomp] at hlt2
                    exact hlt2
                · obtain ⟨t2, ht2, hd1, hd2, hd3⟩ := h.2.1 rr h'.1
                  refine ⟨t2, ?_, hd1, hd2, hd3⟩
                  rw [pushLog_tasks, lookupA_setA_ne _ _ _ _ h'.2]
                  exact ht2
              · show (keysOf (setA s.runners id (PC.ready (k + 1)))).Nodup
                rw [keysOf_setA_of_isSome _ _ _ (by rw [hr]; rfl)]
                exact h.2.2
            · exfalso
              have hceq : (opComplete tr outcome).completed =
                  tr.completed + 1 := by
                cases outcome <;> simp [opComplete]
              have hteq : (opComplete tr outcome).total = tr.total := by
                cases outcome <;> simp [opComplete]
              have hno : numOps (opComplete tr outcome) = numOps tr :=
                numOps_opComplete tr outcome
              have htn : tr.total = numOps tr := hcOK.2.2.1
              rw [hceq, hteq, hcomp] at hlt2
              rw [hno, ← htn] at hk
              exact hlt2 hk
          · rw [if_neg hk]
            refine CInv_finishRunner _ _ _ htasks1 hcOK1 ?_ ?_
            · intro rr hrr
              rw [pushLog_runners] at hrr
              by_cases hne : rr.1 = id
              · exact Or.inl hne
              refine Or.inr ?_
              obtain ⟨t2, ht2, hd1, hd2, hd3⟩ := h.2.1 rr hrr
              refine ⟨t2, ?_, hd1, hd2, hd3⟩
              rw [pushLog_tasks, lookupA_setA_ne _ _ _ _ hne]
              exact ht2
            · rw [pushLog_runners]
              exact h.2.2
  | wake id =>
    show CInv (match lookupA s.runners id with
      | some (PC.ready k) => wakeStep s id k
      | _ => s)
    cases hr : lookupA s.runners id with
    | none => simp only [hr]; exact h
    | some pc =>
      cases pc with
      | delivering k => simp only [hr]; exact h
      | ready k =>
        simp only [hr]
        obtain ⟨tr, htr, hcomp, hlt, hsq⟩ :=
          h.2.1 (id, PC.ready k) (lookupA_mem _ _ _ hr)
        rw [wakeStep]
        simp only [htr]
        by_cases hstop : tr.isStopped
        · rw [if_pos hstop]
          refine CInv_finishRunner _ _ _ h.1
            (h.1 _ (lookupA_mem _ _ _ htr)) ?_ h.2.2
          intro rr hrr
          by_cases hne : rr.1 = id
          · exact Or.inl hne
          · exact Or.inr (h.2.1 rr hrr)
        · rw [if_neg hstop]
          refine ⟨h.1, ?_, ?_⟩
          · intro rr hrr
            have hrr' : rr ∈ setA s.runners id (PC.delivering k) := hrr
            rcases mem_setA_of_nodup _ _ _ _ h.2.2 hrr' with h' | h'
            · rw [h']
              exact ⟨tr, htr, hcomp, hlt, hsq⟩
            · exact h.2.1 rr h'.1
          · show (keysOf (setA s.runners id (PC.delivering k))).Nodup
            rw [keysOf_setA_of_isSome _ _ _ (by rw [hr]; rfl)]
            exact h.2.2
  | structuralError id =>
    show CInv (structuralErrorStep s id)
    rw [structuralErrorStep]
    cases hr : lookupA s.runners id with
    | none =>
      cases hlk : lookupA s.tasks id <;> simp only [hlk] <;> exact h
    | some pc =>
      simp only
      cases hlk : lookupA s.tasks id with
      | none => simp only [hlk]; exact h
      | some t0 =>
        simp only [hlk]
        rw [processTaskQueue]
        refine CInv_ptqAux _ _ ⟨?_, ?_, ?_⟩
        · intro p hp
          rw [pushLog_tasks] at hp
          rcases mem_setA _ _ _ _ hp with h' | h'
          · rw [h']
            exact countersOK_setStatus (h.1 _ (lookupA_mem _ _ _ hlk)) _
              (by decide)
          · exact h.1 p h'
        · intro rr hrr
          rw [pushLog_runners] at hrr
          obtain ⟨hmem, hne⟩ := mem_eraseKey_of_nodup _ _ _ h.2.2 hrr
          obtain ⟨tr, htr, hc1, hc2, hc3⟩ := h.2.1 rr hmem
          refine ⟨tr, ?_, hc1, hc2, hc3⟩
          rw [pushLog_tasks, lookupA_setA_ne _ _ _ _ hne]
          exact htr
        · rw [pushLog_runners]
          exact (keysOf_eraseKey_sublist _ _).nodup h.2.2

theorem CInv_freshAux :
    ∀ (l : List Event) (s : State), CInv s → freshAux s l = true →
      CInv (l.foldl applyEvent s) := by
  intro l
  induction l with
  | nil => intro s h _; exact h
  | cons e rest ih =>
    intro s h hfr
    rw [freshAux, Bool.and_eq_true] at hfr
    refine ih _ ?_ hfr.2
    refine CInv_applyEvent s e h ?_
    intro r u c m cv bc bd td he
    subst he
    have := hfr.1
    simp only [submitIdOf] at this
    exact Option.isNone_iff_eq_none.mp (by simpa using this)

theorem CInv_runEvents (evts : List Event)
    (h : freshTraceB evts = true) : CInv (runEvents evts) := by
  rw [runEvents]
  refine CInv_freshAux evts initState ⟨?_, ?_, ?_⟩ h
  · intro p hp
    simp [initState] at hp
  · intro r hr
    simp [initState] at hr
  · simp [initState, keysOf]

theorem freshAux_append (l l' : List Event) :
    ∀ s : State, freshAux s (l ++ l') = true →
      freshAux s l = true ∧
        freshAux (l.foldl applyEvent s) l' = true := by
  induction l with
  | nil => intro s h; exact ⟨rfl, h⟩
  | cons e rest ih =>
    intro s h
    rw [List.cons_append, freshAux, Bool.and_eq_true] at h
    obtain ⟨h1, h2⟩ := h
    obtain ⟨h3, h4⟩ := ih _ h2
    refine ⟨?_, h4⟩
    rw [freshAux, Bool.and_eq_true]
    exact ⟨h1, h3⟩

/-- C4: in every reachable state of a collision-free execution (every
submission draws an id that is not already a registry key — the condition
under which the functional registry model agrees with JavaScript's aliased
object heap), every task satisfies
`completedOperations = succeededOperations + failedOperations` and
`completedOperations ≤ totalOperations`, and the three counters never
decrease across any further event. -/
theorem c4_counter_invariant (evts : List Event) (e : Event) (id : String)
    (h : freshTraceB (evts ++ [e]) = true) :
    countersOKB (runEvents evts) id = true ∧
      countersLeB (runEvents evts) (runEvents (evts ++ [e])) id = true := by
  rw [freshTraceB] at h
  obtain ⟨h1, h2⟩ := freshAux_append evts [e] initState h
  have hCI : CInv (runEvents evts) := CInv_runEvents evts h1
  have hrunApp : runEvents (evts ++ [e]) =
      applyEvent (runEvents evts) e := by
    rw [runEvents, runEvents, List.foldl_append, List.foldl_cons,
      List.foldl_nil]
  constructor
  · rw [countersOKB]
    cases hlk : lookupA (runEvents evts).tasks id with
    | none => rfl
    | some t =>
      simp only
      have hc := hCI.1 _ (lookupA_mem _ _ _ hlk)
      rw [Bool.and_eq_true, beq_iff_eq, decide_eq_true_eq]
      exact ⟨hc.1, hc.2.1⟩
  · rw [countersLeB]
    cases hlk : lookupA (runEvents evts).tasks id with
    | none => simp
    | some t =>
      have hev : ∃ t', lookupA (applyEvent (runEvents evts) e).tasks id
          = some t' ∧ taskEvol t t' := by
        rcases hsub : submitIdOf e with - | gid
        · exact applyEvent_evol _ _ _ _ (by rw [hsub]; simp) hlk
        · by_cases hgid : gid = id
          · rw [freshAux, Bool.and_eq_true] at h2
            have hnone : lookupA (runEvents evts).tasks id = none := by
              have h21 := h2.1
              rw [hsub] at h21
              rw [runEvents, ← hgid]
              simpa [Option.isNone_iff_eq_none] using h21
            rw [hnone] at hlk
            exact Option.noConfusion hlk
          · refine applyEvent_evol _ _ _ _ ?_ hlk
            rw [hsub]
            intro hc
            exact hgid ((Option.some.injEq _ _).mp hc)
      obtain ⟨t', ht', hev'⟩ := hev
      rw [hrunApp, ht']
      simp only
      obtain ⟨-, -, -, -, e1, e2, e3⟩ := hev'
      rw [Bool.and_eq_true, Bool.and_eq_true]
      exact ⟨⟨decide_eq_true e1, decide_eq_true e2⟩, decide_eq_true e3⟩

/-- Witness for C4 at a one-submission trace extended by a successful
delivery. -/
theorem c4_witness :
    freshTraceB ([smallSubmit 0 "u"] ++
        [Event.deliverReturn "h4rsh_1000" true]) = true ∧
      (countersOKB (runEvents [smallSubmit 0 "u"]) "h4rsh_1000" = true ∧
        countersLeB (runEvents [smallSubmit 0 "u"])
          (runEvents ([smallSubmit 0 "u"] ++
            [Event.deliverReturn "h4rsh_1000" true])) "h4rsh_1000" = true) :=
  ⟨by decide,
    c4_counter_invariant [smallSubmit 0 "u"]
      (Event.deliverReturn "h4rsh_1000" true) "h4rsh_1000" (by decide)⟩

/-! # Claim C9: task identifiers can collide and overwrite -/

/-- C9 (amended): task ids are `h4rsh_N` with `N = 1000 + draw mod 9000`,
so distinct submissions can collide and a colliding submission overwrites
the existing registry entry (see the counterexample).  A submission whose
generated id differs from a given id leaves that id's registry entry
untouched (stated for an empty admission queue, so that the submission's
own admission pass cannot promote other waiting tasks). -/
theorem c9_fresh_id_no_overwrite (s : State) (r : Nat)
    (u c m cv : String) (bc bd td : Nat) (id' : String)
    (hq : s.queue = []) (hne : id' ≠ generateTaskId r) :
    lookupA (submitStep s r u c m cv bc bd td).tasks id' =
      lookupA s.tasks id' := by
  rw [submitStep]
  by_cases h1 : jsTrim c.data = []
  · rw [if_pos h1]
  · rw [if_neg h1]
    by_cases h2 : jsTrim m.data = []
    · rw [if_pos h2]
    · rw [if_neg h2]
      by_cases h3 : jsTrim cv.data = []
      · rw [if_pos h3]
      · rw [if_neg h3]
        by_cases h4 : MAX_TASKS_PER_USER ≤
            (s.tasks.filter
              (fun p => p.2.user_id = u && p.2.status = "running")).length
        · rw [if_pos h4]
        · rw [if_neg h4]
          by_cases h5 : (parseCookies c).length = 0
          · rw [if_pos h5]
          · rw [if_neg h5]
            by_cases h6 : (listField m).length = 0
            · rw [if_pos h6]
            · rw [if_neg h6]
              by_cases h7 : (listField cv).length = 0
              · rw [if_pos h7]
              · rw [if_neg h7]
                rw [processTaskQueue]
                rw [ptqAux_lookup_not_mem _ _ id' (by simp [pushLog, hq, hne])]
                simp [pushLog, lookupA_setA_ne _ _ _ _ hne]

/-- Witness for C9: a second submission with a non-colliding draw leaves
the first task's registry entry untouched. -/
theorem c9_witness :
    (runEvents [smallSubmit 0 "u"]).queue = [] ∧
      "h4rsh_1000" ≠ generateTaskId 7 ∧
      lookupA (submitStep (runEvents [smallSubmit 0 "u"])
          7 "v" "c_user=9" "msg" "conv" 1 5 10).tasks "h4rsh_1000" =
        lookupA (runEvents [smallSubmit 0 "u"]).tasks "h4rsh_1000" :=
  ⟨by decide, by decide,
    c9_fresh_id_no_overwrite (runEvents [smallSubmit 0 "u"]) 7 "v"
      "c_user=9" "msg" "conv" 1 5 10 "h4rsh_1000" (by decide) (by decide)⟩

/-- C9 counterexample: two distinct accepted submissions whose random
draws are `0` and `9000` both generate the id `h4rsh_1000`; after the
second submission the registry holds a single entry under that id, and its
`total` is the second submission's (`2`), the first task's entry (with
`total = 1`) having been overwritten. -/
theorem c9_counterexample :
    (runEvents [smallSubmit 0 "u"]).tasks.length = 1 ∧
      ((lookupA (runEvents [smallSubmit 0 "u"]).tasks "h4rsh_1000").map
        Task.total) = some 1 ∧
      (runEvents [smallSubmit 0 "u",
        Event.submit 9000 "v" "c_user=1" "m1\nm2" "c" 1 5 10]).tasks.length
        = 1 ∧
      ((lookupA (runEvents [smallSubmit 0 "u",
        Event.submit 9000 "v" "c_user=1" "m1\nm2" "c" 1 5 10]).tasks
        "h4rsh_1000").map Task.total) = some 2 := by
  refine ⟨by decide, by decide, by decide, by decide⟩

/-! # Claim C1: totalOperations has no credential-set factor -/

/-- C1 counterexample: an accepted submission with two parsed credential
sets, one message, one conversation and `batchCount = 1` is stored with
`totalOperations = 1`, whereas the claimed formula
`batchCount * |credentialSets| * |targets| * |messages|` gives `2`. -/
theorem c1_counterexample :
    ((lookupA (runEvents
        [Event.submit 0 "u" "c_user=1\nxs=2" "m" "c" 1 5 10]).tasks
        "h4rsh_1000").map (fun t =>
          (t.total, t.batch_count, t.cookies.length, t.conversations.length,
            t.messages.length))) = some (1, 1, 2, 1, 1) ∧
      (1 : Nat) ≠ 1 * 2 * 1 * 1 := by
  refine ⟨by decide, by decide⟩

/-! # Claim C3: stop is not a no-op on completed tasks -/

/-- C3 counterexample: a task that has reached the terminal status
`completed` and is then stopped has its status overwritten to `stopped` —
the stop handler does not check for terminal states, so the status
regresses and the task state changes. -/
theorem c3_counterexample :
    taskStatusOf (runEvents
        [smallSubmit 0 "u", Event.deliverReturn "h4rsh_1000" true])
        "h4rsh_1000" = some "completed" ∧
      taskStatusOf (runEvents
        [smallSubmit 0 "u", Event.deliverReturn "h4rsh_1000" true,
          Event.stopTask "h4rsh_1000"]) "h4rsh_1000" = some "stopped" := by
  refine ⟨by decide, by decide⟩

/-- C3 (amended): `stop` is idempotent on the task registry and the
admission queue — a second `stop` of the same task changes neither — and
`stop` of any existing task (terminal ones included) reports success.  It
is however not a no-op on terminal tasks: it overwrites the status with
`stopped` (see the counterexample), so only repeated stopping, not
stopping after completion, preserves the state.  Log entries accrue per
call and are excluded.  The queue hypothesis holds for every real queue
(an id is enqueued at most once per submission). -/
theorem c3_stop_idempotent (s : State) (id : String)
    (hq : s.queue.count id ≤ 1) :
    (applyEvent (applyEvent s (.stopTask id)) (.stopTask id)).tasks =
        (applyEvent s (.stopTask id)).tasks ∧
      (applyEvent (applyEvent s (.stopTask id)) (.stopTask id)).queue =
        (applyEvent s (.stopTask id)).queue ∧
      ((lookupA s.tasks id).isSome →
        stopResp (applyEvent s (.stopTask id)) id = true) := by
  show (stopTaskStep (stopTaskStep s id) id).tasks =
      (stopTaskStep s id).tasks ∧
    (stopTaskStep (stopTaskStep s id) id).queue =
      (stopTaskStep s id).queue ∧
    ((lookupA s.tasks id).isSome → stopResp (stopTaskStep s id) id = true)
  have hnone : ∀ s' : State, lookupA s'.tasks id = none →
      stopTaskStep s' id = s' := by
    intro s' h
    simp only [stopTaskStep, h]
  have htasksEq : ∀ (s' : State) (t : Task), lookupA s'.tasks id = some t →
      (stopTaskStep s' id).tasks =
        setA s'.tasks id { t with isStopped := true, status := "stopped" } := by
    intro s' t h
    simp only [stopTaskStep, h, pushLog_tasks]
  have hqueueEq : ∀ (s' : State) (t : Task), lookupA s'.tasks id = some t →
      (stopTaskStep s' id).queue = eraseFirst s'.queue id := by
    intro s' t h
    simp only [stopTaskStep, h, pushLog_queue]
  cases hlk : lookupA s.tasks id with
  | none =>
    rw [hnone s hlk, hnone s hlk]
    simp [hlk]
  | some t =>
    have hl1 : lookupA (stopTaskStep s id).tasks id =
        some { t with isStopped := true, status := "stopped" } := by
      rw [htasksEq s t hlk, lookupA_setA_self]
    refine ⟨?_, ?_, ?_⟩
    · rw [htasksEq (stopTaskStep s id) _ hl1]
      exact setA_self _ _ _ hl1
    · rw [hqueueEq (stopTaskStep s id) _ hl1, hqueueEq s t hlk]
      exact eraseFirst_of_not_mem _ _ (count_eraseFirst_not_mem _ _ hq)
    · intro _
      rw [stopResp, hl1]
      rfl

/-- Witness for C3: stopping an already-stopped task twice equals stopping
it once, and the second stop still reports success. -/
theorem c3_witness :
    (runEvents [smallSubmit 0 "u"]).queue.count "h4rsh_1000" ≤ 1 ∧
      ((applyEvent (applyEvent (runEvents [smallSubmit 0 "u"])
            (.stopTask "h4rsh_1000")) (.stopTask "h4rsh_1000")).tasks =
          (applyEvent (runEvents [smallSubmit 0 "u"])
            (.stopTask "h4rsh_1000")).tasks ∧
        (applyEvent (applyEvent (runEvents [smallSubmit 0 "u"])
            (.stopTask "h4rsh_1000")) (.stopTask "h4rsh_1000")).queue =
          (applyEvent (runEvents [smallSubmit 0 "u"])
            (.stopTask "h4rsh_1000")).queue ∧
        ((lookupA (runEvents [smallSubmit 0 "u"]).tasks "h4rsh_1000").isSome →
          stopResp (applyEvent (runEvents [smallSubmit 0 "u"])
            (.stopTask "h4rsh_1000")) "h4rsh_1000" = true)) :=
  ⟨by decide,
    c3_stop_idempotent (runEvents [smallSubmit 0 "u"]) "h4rsh_1000"
      (by decide)⟩

/-! # Claim C6: the error path uses status `error`, not `failed` -/

/-- C6 counterexample: when the execution loop's `catch` handler fires,
the task's status becomes `error`, which is not among the five values
`queued | running | completed | stopped | failed` the claim allows. -/
theorem c6_counterexample :
    taskStatusOf (runEvents
        [smallSubmit 0 "u", Event.structuralError "h4rsh_1000"])
        "h4rsh_1000" = some "error" ∧
      "error" ∉
        (["queued", "running", "completed", "stopped", "failed"] :
          List String) := by
  refine ⟨by decide, by decide⟩

end DemonsSlayer
